import Mathlib

/-!
Verification development for the tcq-rn-quran-app repository.

Each section embeds the relevant TypeScript functions as Lean definitions
(translated from the source files under `src/`), and proves the claims
about them.  Asynchronous effectful code is embedded by making the external
outcomes (fetch results, storage state, clock readings) explicit parameters,
and state updates explicit state-passing.
-/

/- ===================== src/services/quranApi.ts ===================== -/

/-- Result record returned by `executeQuranQuery` (interface `QueryResult<T>`).
The optional `error` field is `Option String`. -/
structure QueryResult (α : Type) where
  success : Bool
  data : Option α
  count : Int
  error : Option String
deriving Repr, DecidableEq

/-- The JSON body produced by `await response.json()` in `executeQuranQuery`.
`message` models `data.message`; the empty string stands for an absent or
empty message (both are falsy in JavaScript, so `data.message || "Query failed"`
treats them alike). -/
structure QueryResponseBody (α : Type) where
  success : Bool
  data : Option α
  count : Int
  message : String
deriving Repr, DecidableEq

/-- Outcome of the `fetch`/`response.json()` part of `executeQuranQuery`:
either a parsed body, or a thrown `Error` carrying a message, or a thrown
non-`Error` value. -/
inductive FetchOutcome (α : Type)
  | ok (body : QueryResponseBody α)
  | thrownError (msg : String)
  | thrownOther
deriving Repr, DecidableEq

/-- `executeQuranQuery` from src/services/quranApi.ts (lines 11-54).
`apiBaseUrl = none` models an unset (or empty, hence falsy)
`EXPO_PUBLIC_QURAN_API_BASE_URL`; the SQL text and parameter list do not
influence the control flow, so they are omitted from the embedding. -/
def executeQuranQuery {α : Type} (apiBaseUrl : Option String)
    (outcome : FetchOutcome α) : QueryResult α :=
  match apiBaseUrl with
  | none =>
    { success := false, error := some ("Missing EXPO_PUBLIC_QURAN_API_BASE_URL"),
      data := none, count := 0 }
  | some _ =>
    match outcome with
    | .ok body =>
      if body.success then
        { success := true, data := body.data, count := body.count, error := none }
      else
        { success := false,
          error := some (if body.message = ("") then ("Query failed") else body.message),
          data := none, count := 0 }
    | .thrownError msg =>
      { success := false, error := some msg, data := none, count := 0 }
    | .thrownOther =>
      { success := false, error := some ("Network error"), data := none, count := 0 }

/- ===================== src/hooks/useStripeSubscription.ts (cache) ===================== -/

/-- `ProductSubscription` from src/hooks/useStripeSubscription.ts. -/
structure ProductSubscription where
  subscribed : Bool
  subscription_end : Option String
deriving Repr, DecidableEq

/-- `StripeSubscriptions` from src/hooks/useStripeSubscription.ts. -/
structure StripeSubscriptions where
  read : ProductSubscription
  audiobook : ProductSubscription
  bundle : ProductSubscription
deriving Repr, DecidableEq

/-- `CACHE_DURATION_MS` constant (one hour). -/
def CACHE_DURATION_MS : Nat := 3600000

/-- `DEFAULT_SUBSCRIPTIONS` constant. -/
def DEFAULT_SUBSCRIPTIONS : StripeSubscriptions :=
  { read := { subscribed := false, subscription_end := none },
    audiobook := { subscribed := false, subscription_end := none },
    bundle := { subscribed := false, subscription_end := none } }

/-- `CachedSubscription` record stored (JSON-serialised) under the
`subscription_status` key. -/
structure CachedSubscription where
  subscriptions : StripeSubscriptions
  userId : String
deriving Repr, DecidableEq

/-- The part of AsyncStorage touched by the subscription cache: the two keys
`subscription_status` and `subscription_status_expiry`.  Values are modelled
post-(de)serialisation: `JSON.parse (JSON.stringify x) = x` and
`parseInt (String n, 10) = n` for a natural number `n`. -/
structure SubscriptionCacheState where
  cached : Option CachedSubscription
  expiry : Option Nat
deriving Repr, DecidableEq

/-- `cacheSubscription` (lines 70-87): writes the record and the expiry
`Date.now() + CACHE_DURATION_MS`.  `now` is the `Date.now()` reading. -/
def cacheSubscription (now : Nat) (userId : String) (subscriptions : StripeSubscriptions)
    (_st : SubscriptionCacheState) : SubscriptionCacheState :=
  { cached := some { subscriptions := subscriptions, userId := userId },
    expiry := some (now + CACHE_DURATION_MS) }

/-- `getCachedSubscription` (lines 42-68): returns the cached value and the
storage state after the call.  `now` is the `Date.now()` reading at the
expiry comparison. -/
def getCachedSubscription (now : Nat) (userId : String)
    (st : SubscriptionCacheState) : Option StripeSubscriptions × SubscriptionCacheState :=
  match st.cached, st.expiry with
  | none, _ => (none, st)
  | some _, none => (none, st)
  | some c, some e =>
    if e < now then
      (none, { cached := none, expiry := none })
    else if c.userId ≠ userId then
      (none, { cached := none, expiry := none })
    else
      (some c.subscriptions, st)

/- ===================== src/services/quranAudioService.ts ===================== -/

/-- `VerseTiming` from src/services/quranAudioService.ts.  Timestamps are
milliseconds; `segments` are word-level `[word_index, start_ms, end_ms]`
triples. -/
structure VerseTiming where
  verse_key : String
  timestamp_from : Int
  timestamp_to : Int
  segments : List (List Int)
deriving Repr, DecidableEq

/-- `findCurrentVerseTiming` (lines 104-114): first timing whose
half-open interval `[timestamp_from, timestamp_to)` contains the time. -/
def findCurrentVerseTiming (currentTimeMs : Int) :
    List VerseTiming → Option VerseTiming
  | [] => none
  | timing :: rest =>
    if currentTimeMs ≥ timing.timestamp_from ∧ currentTimeMs < timing.timestamp_to then
      some timing
    else
      findCurrentVerseTiming currentTimeMs rest

/-- A timing covers a playback time when `timestamp_from <= t < timestamp_to`
(the condition tested by `findCurrentVerseTiming`). -/
def coversTime (currentTimeMs : Int) (timing : VerseTiming) : Prop :=
  timing.timestamp_from ≤ currentTimeMs ∧ currentTimeMs < timing.timestamp_to

instance (t : Int) (v : VerseTiming) : Decidable (coversTime t v) := by
  unfold coversTime; infer_instance

/-- `getVerseTimingByNumber` (lines 123-130): finds the timing whose
`verse_key` is the string `surahId ++ ":" ++ verseNumber`. -/
def getVerseTimingByNumber (surahId : Nat) (verseNumber : Nat)
    (verseTimings : List VerseTiming) : Option VerseTiming :=
  let verseKey := toString surahId ++ (":") ++ toString verseNumber
  (verseTimings.find? (fun t => t.verse_key = verseKey))

/-- `SurahAudioData` from src/services/quranAudioService.ts. -/
structure SurahAudioData where
  audioUrl : String
  verseTimings : List VerseTiming
  duration : Int
  chapterId : Int
deriving Repr, DecidableEq

/-- `ApiAudioFile` from src/services/quranAudioService.ts.  `verse_timings`
and `duration` are `Option`s because the code guards them with
`verse_timings || []` and `duration || 0`. -/
structure ApiAudioFile where
  id : Int
  chapter_id : Int
  file_size : Int
  format : String
  audio_url : String
  verse_timings : Option (List VerseTiming)
  duration : Option Int
deriving Repr, DecidableEq

/-- `ApiResponse` from src/services/quranAudioService.ts. -/
structure AudioApiResponse where
  audio_file : Option ApiAudioFile
  audio_files : Option (List ApiAudioFile)
deriving Repr, DecidableEq

/-- Outcome of the `fetch` in `fetchSurahAudio`: a non-ok HTTP response or a
parsed JSON body. -/
inductive AudioNetOutcome
  | notOk (status : Int) (statusText : String)
  | ok (body : AudioApiResponse)
deriving Repr, DecidableEq

/-- `fetchSurahAudio` (lines 52-96).  The pair's second component records
whether a network request was performed.  Thrown errors are returned as
`Except.error` with the thrown message.  `none` for a config variable models
an unset (or empty, hence falsy) environment value. -/
def fetchSurahAudio (supabaseUrl supabaseKey : Option String) (surahId : Int)
    (net : AudioNetOutcome) : Except String SurahAudioData × Bool :=
  if supabaseUrl.isNone ∨ supabaseKey.isNone then
    (Except.error ("Missing EXPO_PUBLIC_SUPABASE_URL or EXPO_PUBLIC_SUPABASE_PUBLISHABLE_KEY"),
     false)
  else if surahId < 1 ∨ surahId > 114 then
    (Except.error (("Invalid surah ID: ") ++ toString surahId ++ (". Must be between 1 and 114.")),
     false)
  else
    match net with
    | .notOk status statusText =>
      (Except.error (("Failed to fetch audio data: ") ++ toString status ++ (" ") ++ statusText),
       true)
    | .ok body =>
      let audioFile : Option ApiAudioFile :=
        match body.audio_files with
        | some (f :: _) => some f
        | _ => body.audio_file
      match audioFile with
      | none =>
        (Except.error (("No audio file found for surah ") ++ toString surahId), true)
      | some f =>
        (Except.ok { audioUrl := f.audio_url, verseTimings := f.verse_timings.getD [],
                     duration := f.duration.getD 0, chapterId := f.chapter_id },
         true)

/- ===================== src/screens/ReadScreen.tsx ===================== -/

/-- The candidate-updating loop inside `getLastViewedVerse`
(`for (const verseNumber of verseNumbers) { if (offsets[verseNumber] <= viewportTop)
candidate = verseNumber; else break; }`). -/
def scanCandidate (off : Nat → Int) (viewportTop : Int) (candidate : Nat) :
    List Nat → Nat
  | [] => candidate
  | v :: rest =>
    if off v ≤ viewportTop then scanCandidate off viewportTop v rest
    else candidate

/-- `getLastViewedVerse` from src/screens/ReadScreen.tsx (lines 164-181).
The JS object `verseOffsetsRef.current` is modelled by its (unique) numeric
key set `keys` together with the valuation `off`; the code's
`Object.keys(...).map(Number).filter(not NaN)` key extraction yields exactly
those keys, and `.sort((a, b) => a - b)` is ascending numeric sort.
`insetTop` is `insets.top`. -/
def getLastViewedVerse (scrollY insetTop : Int) (keys : List Nat)
    (off : Nat → Int) : Option Nat :=
  match List.insertionSort (· ≤ ·) keys with
  | [] => none
  | v0 :: rest =>
    some (scanCandidate off (scrollY + insetTop + 56 + 12) v0 (v0 :: rest))

/-- Offset map used in the counterexample for claim C4: verse 2 is laid out
below the viewport top while verse 3 is above it (non-monotone offsets). -/
def cexOffsets : Nat → Int :=
  fun v => if v = 1 then 0 else if v = 2 then 100 else if v = 3 then 50 else 0

/-- A monotone offset map used as a concrete witness input. -/
def demoVerseOffsets : Nat → Int := fun v => 10 * v

/- ===================== src/contexts/QuranAudioContext.tsx ===================== -/

/-- `PlaybackState` from src/contexts/QuranAudioContext.tsx. -/
inductive PlaybackState
  | idle
  | loading
  | playing
  | paused
deriving Repr, DecidableEq

/-- The fields of an expo-av playback status read by the handler in
`ensureSound`. -/
structure AudioStatus where
  isLoaded : Bool
  positionMillis : Int
  durationMillis : Option Int
  isPlaying : Bool
  didJustFinish : Bool
deriving Repr, DecidableEq

/-- The provider state touched by the playback-status handler and `playVerse`:
React state (`playbackState`, `isSingleVerseMode`, `currentVerseKey`, current
time and duration) and the `singleVerseEndTimeRef` ref.  The source stores
`currentTime`/`duration` in seconds (`positionMillis / 1000`); they are kept
in milliseconds here.  `pauseRequested` records whether `sound.pauseAsync()`
has been invoked on the underlying sound. -/
structure AudioState where
  playbackState : PlaybackState
  isSingleVerseMode : Bool
  singleVerseEndTime : Option Int
  currentVerseKey : Option String
  currentTimeMs : Int
  durationMs : Int
  pauseRequested : Bool
deriving Repr, DecidableEq

/-- The `setOnPlaybackStatusUpdate` callback installed by `ensureSound`
(QuranAudioContext.tsx lines 86-114): ignores unloaded statuses, mirrors
position/duration, derives playing/paused state, enforces the single-verse
end boundary (pausing the sound, setting state to paused, clearing the mode
and the boundary), and finally tracks the current verse key.
`verseTimings` is the timing list captured by the closure. -/
def onPlaybackStatusUpdate (verseTimings : List VerseTiming) (st : AudioState)
    (status : AudioStatus) : AudioState :=
  if !status.isLoaded then st
  else
    let st1 := { st with currentTimeMs := status.positionMillis,
                         durationMs := status.durationMillis.getD 0 }
    let st2 :=
      if status.isPlaying then { st1 with playbackState := PlaybackState.playing }
      else if status.positionMillis > 0 ∧ status.didJustFinish = false then
        { st1 with playbackState := PlaybackState.paused }
      else st1
    let st3 :=
      match st2.singleVerseEndTime with
      | some endTime =>
        if status.positionMillis ≥ endTime then
          { st2 with pauseRequested := true, playbackState := PlaybackState.paused,
                     isSingleVerseMode := false, singleVerseEndTime := none }
        else st2
      | none => st2
    if status.isPlaying ∧ verseTimings.length > 0 then
      match findCurrentVerseTiming status.positionMillis verseTimings with
      | some timing =>
        if some timing.verse_key ≠ st3.currentVerseKey then
          { st3 with currentVerseKey := some timing.verse_key }
        else st3
      | none => st3
    else st3

/-- `playVerse` (QuranAudioContext.tsx lines 181-217), restricted to the
fields modelled in `AudioState`.  `currentChapterId`/`audioUrl` are the
provider state consulted by the guard; when the requested surah is not
loaded the call defers to `loadSurahAudio` via `pendingActionRef` (second
component `true`) and changes none of the modelled fields.  `playSucceeds`
tells whether `sound.playAsync()` resolves or rejects. -/
def playVerse (currentChapterId : Option Nat) (audioUrl : Option String)
    (verseTimings : List VerseTiming) (playSucceeds : Bool)
    (surahId verseNumber : Nat) (st : AudioState) : AudioState × Bool :=
  if currentChapterId ≠ some surahId ∨ audioUrl = none then
    (st, true)
  else
    match getVerseTimingByNumber surahId verseNumber verseTimings with
    | none => (st, false)
    | some timing =>
      let st1 := { st with currentVerseKey := some timing.verse_key,
                           isSingleVerseMode := true,
                           singleVerseEndTime := some timing.timestamp_to }
      if playSucceeds then
        ({ st1 with playbackState := PlaybackState.playing }, false)
      else
        ({ st1 with playbackState := PlaybackState.idle,
                    singleVerseEndTime := none }, false)

/-- A concrete verse timing (verse 1:1, 0 ms to 5000 ms) used as witness
input. -/
def demoVerseTiming : VerseTiming :=
  { verse_key := ("1:1"), timestamp_from := 0, timestamp_to := 5000, segments := [] }

/-- A concrete idle provider state used as witness input. -/
def demoAudioState : AudioState :=
  { playbackState := PlaybackState.idle, isSingleVerseMode := false,
    singleVerseEndTime := none, currentVerseKey := none,
    currentTimeMs := 0, durationMs := 0, pauseRequested := false }

/- ===================== src/hooks/useBookmarks.ts ===================== -/

/-- `Bookmark` from src/hooks/useBookmarks.ts. -/
structure Bookmark where
  id : String
  surah_number : Nat
  verse_number : Nat
  note : Option String
  created_at : String
deriving Repr, DecidableEq

/-- The optimistic id `` `temp-${Date.now()}` `` used by `addBookmark`. -/
def tempBookmarkId (now : Nat) : String := ("temp-") ++ toString now

/-- `addBookmark` (useBookmarks.ts lines 70-130), as a transformation of the
local `bookmarks` state.  `userSignedIn` is whether `supabase.auth.getUser()`
returned a user, `insertFails` whether the backend insert rejected or
returned an error, `now` the `Date.now()` reading and `nowIso` the
`new Date().toISOString()` string.  On success the subsequent
`fetchBookmarks()` server refresh is outside this function. -/
def addBookmark (userSignedIn : Bool) (insertFails : Bool) (now : Nat)
    (nowIso : String) (surahNumber verseNumber : Nat) (note : Option String)
    (bookmarks : List Bookmark) : List Bookmark :=
  if !userSignedIn then bookmarks
  else
    let optimisticBookmark : Bookmark :=
      { id := tempBookmarkId now, surah_number := surahNumber,
        verse_number := verseNumber, note := note, created_at := nowIso }
    let updated := optimisticBookmark :: bookmarks
    if insertFails then
      updated.filter (fun b => !(b.id == optimisticBookmark.id))
    else
      updated

/-- `removeBookmark` (useBookmarks.ts lines 132-170): optimistically filters
out the matching bookmarks; if the backend delete fails the saved
`previousBookmarks` copy is restored. -/
def removeBookmark (userSignedIn : Bool) (deleteFails : Bool)
    (surahNumber verseNumber : Nat) (bookmarks : List Bookmark) : List Bookmark :=
  if !userSignedIn then bookmarks
  else
    let updated := bookmarks.filter
      (fun b => !(b.surah_number == surahNumber && b.verse_number == verseNumber))
    if deleteFails then bookmarks else updated

/- ===================== src/hooks/useStripeSubscription.ts (in-flight) ===================== -/

/-- Events acting on the in-flight bookkeeping of `checkSubscription`:
a call (with whether a session/user is present and whether `force` was
passed) and the completion of a started check's `performCheck()` promise,
reached both on success and on error via its `finally` block. -/
inductive CheckEvent
  | call (hasSession : Bool) (force : Bool)
  | complete (id : Nat)
deriving Repr, DecidableEq

/-- The bookkeeping state: `inFlight` models `inFlightRequestRef.current`
(promises are identified by the order in which they are created), `running`
the set of started-but-not-completed `performCheck` bodies, `nextId` the
next fresh promise identity. -/
structure CheckConcurrencyState where
  inFlight : Option Nat
  running : List Nat
  nextId : Nat
deriving Repr, DecidableEq

/-- Initial bookkeeping state (`inFlightRequestRef` starts as `null`). -/
def checkInit : CheckConcurrencyState := { inFlight := none, running := [], nextId := 0 }

/-- The transition taken by `checkSubscription` (useStripeSubscription.ts
lines 148-274) on each event.  A call without a session returns early and
leaves the ref untouched; a call with a pending promise and no `force`
returns that promise; otherwise `performCheck()` is started and its promise
stored; a completion's `finally` block sets the ref to `null`. -/
def checkStep (st : CheckConcurrencyState) (e : CheckEvent) : CheckConcurrencyState :=
  match e with
  | .call hasSession force =>
    if !hasSession then st
    else
      match st.inFlight, force with
      | some _, false => st
      | _, _ =>
        { inFlight := some st.nextId, running := st.nextId :: st.running,
          nextId := st.nextId + 1 }
  | .complete id =>
    if id ∈ st.running then
      { st with running := st.running.erase id, inFlight := none }
    else st

/-- The promise returned to the caller of `checkSubscription` (`none` for the
early session-less return, which returns `undefined`). -/
def checkCallResult (st : CheckConcurrencyState) (hasSession force : Bool) : Option Nat :=
  if !hasSession then none
  else
    match st.inFlight, force with
    | some p, false => some p
    | _, _ => some st.nextId

/-- A trace in which no call passed `force: true`. -/
def UnforcedTrace (evs : List CheckEvent) : Prop :=
  ∀ hs f, CheckEvent.call hs f ∈ evs → f = false

/-- Invariant of unforced traces: the running set is empty when no promise is
stored and is exactly the stored promise otherwise. -/
def CheckInv (st : CheckConcurrencyState) : Prop :=
  (st.inFlight = none → st.running = []) ∧
  (∀ p, st.inFlight = some p → st.running = [p])

/- ===================== src/hooks/useStripeSubscription.ts (checkSubscription) ===================== -/

/-- `ProductType` from src/hooks/useSubscriptionPlans.ts. -/
inductive ProductType
  | read
  | audiobook
  | bundle
deriving Repr, DecidableEq

/-- The fields of `SubscriptionPlan` (useSubscriptionPlans.ts) read by the
matching loop in `checkSubscription`; `stripe_product_id` is nullable. -/
structure SubscriptionPlan where
  stripe_product_id : Option String
  product_type : ProductType
deriving Repr, DecidableEq

/-- One element of `data.subscriptions` handled by the `forEach` in
`checkSubscription` (useStripeSubscription.ts lines 218-246). -/
structure IncomingSubscription where
  product_id : String
  subscription_end : String
  status : Option String
deriving Repr, DecidableEq

/-- The body of the inner `for (const plan of currentPlans)` loop: on a
product-id match, set the plan's product to subscribed with the incoming
end date, and for a bundle also set `read` and `audiobook`. -/
def applyPlanMatch (sub : IncomingSubscription) (acc : StripeSubscriptions)
    (plan : SubscriptionPlan) : StripeSubscriptions :=
  if plan.stripe_product_id = some sub.product_id then
    let acc1 :=
      match plan.product_type with
      | .read =>
        { acc with read := { subscribed := true,
                             subscription_end := some sub.subscription_end } }
      | .audiobook =>
        { acc with audiobook := { subscribed := true,
                                  subscription_end := some sub.subscription_end } }
      | .bundle =>
        { acc with bundle := { subscribed := true,
                               subscription_end := some sub.subscription_end } }
    if plan.product_type = ProductType.bundle then
      { acc1 with read := { subscribed := true,
                            subscription_end := some sub.subscription_end },
                  audiobook := { subscribed := true,
                                 subscription_end := some sub.subscription_end } }
    else acc1
  else acc

/-- The body of the `forEach` over `data.subscriptions`: canceled
subscriptions are skipped, all others are matched against every plan. -/
def applyIncomingSub (plans : List SubscriptionPlan) (acc : StripeSubscriptions)
    (sub : IncomingSubscription) : StripeSubscriptions :=
  if sub.status = some ("canceled") ∨ sub.status = some ("cancelled") then acc
  else plans.foldl (applyPlanMatch sub) acc

/-- The `newSubscriptions` value built by `checkSubscription`
(useStripeSubscription.ts lines 211-247) from the plans list and the
function response's subscriptions array. -/
def buildSubscriptions (plans : List SubscriptionPlan)
    (subs : List IncomingSubscription) : StripeSubscriptions :=
  subs.foldl (applyIncomingSub plans) DEFAULT_SUBSCRIPTIONS

/-- `hasReadAccess` as returned by `useStripeSubscription` (line 392). -/
def hasReadAccess (s : StripeSubscriptions) : Bool :=
  s.read.subscribed || s.bundle.subscribed

/-- `hasAudiobookAccess` as returned by `useStripeSubscription` (lines 393-394). -/
def hasAudiobookAccess (s : StripeSubscriptions) : Bool :=
  s.audiobook.subscribed || s.bundle.subscribed

/-- `hasBundleAccess` as returned by `useStripeSubscription` (line 395). -/
def hasBundleAccess (s : StripeSubscriptions) : Bool :=
  s.bundle.subscribed

/-- The bundle-implies-parts invariant of a subscriptions value. -/
def BundleImpliesParts (s : StripeSubscriptions) : Prop :=
  s.bundle.subscribed = true → s.read.subscribed = true ∧ s.audiobook.subscribed = true

/-- Plans used in the counterexample for claim C8: a bundle plan and a
separate read plan. -/
def cexPlans : List SubscriptionPlan :=
  [{ stripe_product_id := some ("pb"), product_type := ProductType.bundle },
   { stripe_product_id := some ("pr"), product_type := ProductType.read }]

/-- Incoming subscriptions used in the counterexample for claim C8: a bundle
subscription and a separate read subscription with a different end date. -/
def cexSubs : List IncomingSubscription :=
  [{ product_id := ("pb"), subscription_end := ("2031-01-01"), status := none },
   { product_id := ("pr"), subscription_end := ("2032-01-01"), status := none }]

/- ===================== src/utils/stripFootnoteTags.ts ===================== -/

/-- Case-insensitive match of one pattern character (the patterns in
stripFootnoteTags.ts use only lowercase letters and the symbols `<`, `/`,
`>`): under the `i` flag an input character matches a lowercase pattern
letter `p` when it equals `p` or its ASCII uppercase form. -/
def charMatchCI (p c : Char) : Bool :=
  c == p || (p.isLower && c.toNat == p.toNat - 32)

/-- Match a literal pattern case-insensitively at the head of the input,
returning the remainder on success. -/
def matchCI : List Char → List Char → Option (List Char)
  | [], s => some s
  | _ :: _, [] => none
  | p :: ps, c :: cs => if charMatchCI p c then matchCI ps cs else none

/-- Consume input up to and including the first `>`; `none` when no `>`
remains (then a `[^>]*>` tail cannot match). -/
def dropThroughGt : List Char → Option (List Char)
  | [] => none
  | c :: cs => if c == '>' then some cs else dropThroughGt cs

/-- Split the input at the first `>`: the (`>`-free) segment before it and
the remainder after it. -/
def takeToGt : List Char → Option (List Char × List Char)
  | [] => none
  | c :: cs =>
    if c == '>' then some ([], cs)
    else
      match takeToGt cs with
      | some (seg, rest) => some (c :: seg, rest)
      | none => none

/-- The whitespace characters matched by the regex class `\s` that occur in
translation markup (space, tab, newline, carriage return). -/
def isJsSpace (c : Char) : Bool :=
  c == ' ' || c == '\t' || c == '\n' || c == '\r'

/-- The literal `<footnote` as a character list. -/
def footnotePat : List Char :=
  [ '<', 'f', 'o', 'o', 't', 'n', 'o', 't', 'e' ]

/-- The literal `</footnote>` as a character list. -/
def closePat : List Char :=
  [ '<', '/', 'f', 'o', 'o', 't', 'n', 'o', 't', 'e', '>' ]

/-- One left-to-right pass of `.replace(/<footnote\s+[^>]*>/gi, "")`: a match
starts where `<footnote` matches case-insensitively followed by a whitespace
character, and extends through the first later `>` (the greedy `[^>]*`
cannot cross a `>`); matched spans are dropped and scanning resumes after
them, otherwise one character is kept and scanning advances.  The fuel
argument (instantiated with the input length) makes the recursion
structural. -/
def stripOpenFuel : Nat → List Char → List Char
  | 0, s => s
  | _ + 1, [] => []
  | fuel + 1, c :: cs =>
    match matchCI footnotePat (c :: cs) with
    | some rest =>
      match rest with
      | r :: rs =>
        if isJsSpace r then
          match dropThroughGt rs with
          | some after => stripOpenFuel fuel after
          | none => c :: stripOpenFuel fuel cs
        else c :: stripOpenFuel fuel cs
      | [] => c :: stripOpenFuel fuel cs
    | none => c :: stripOpenFuel fuel cs

/-- `.replace(/<footnote\s+[^>]*>/gi, "")` on a character list. -/
def stripOpenAux (s : List Char) : List Char := stripOpenFuel s.length s

/-- One left-to-right pass of `.replace(/<\/footnote>/gi, "")`: literal
case-insensitive matches of `</footnote>` are dropped. -/
def stripCloseFuel : Nat → List Char → List Char
  | 0, s => s
  | _ + 1, [] => []
  | fuel + 1, c :: cs =>
    match matchCI closePat (c :: cs) with
    | some rest => stripCloseFuel fuel rest
    | none => c :: stripCloseFuel fuel cs

/-- `.replace(/<\/footnote>/gi, "")` on a character list. -/
def stripCloseAux (s : List Char) : List Char := stripCloseFuel s.length s

/-- One left-to-right pass of `.replace(/<footnote[^>]*\/>/gi, "")`: a match
starts where `<footnote` matches case-insensitively and the first later `>`
is immediately preceded by `/` (the greedy `[^>]*` cannot cross a `>`), and
extends through that `>`. -/
def stripSelfCloseFuel : Nat → List Char → List Char
  | 0, s => s
  | _ + 1, [] => []
  | fuel + 1, c :: cs =>
    match matchCI footnotePat (c :: cs) with
    | some rest =>
      match takeToGt rest with
      | some (seg, after) =>
        if seg.getLast? == some ('/') then stripSelfCloseFuel fuel after
        else c :: stripSelfCloseFuel fuel cs
      | none => c :: stripSelfCloseFuel fuel cs
    | none => c :: stripSelfCloseFuel fuel cs

/-- `.replace(/<footnote[^>]*\/>/gi, "")` on a character list. -/
def stripSelfCloseAux (s : List Char) : List Char := stripSelfCloseFuel s.length s

/-- `stripFootnoteTags` from src/utils/stripFootnoteTags.ts (lines 8-13):
`(text ?? "")` (modelled by `Option.getD`, `none` standing for `null` or
`undefined`) followed by the three global replaces in source order. -/
def stripFootnoteTags (text : Option String) : String :=
  String.mk (stripSelfCloseAux (stripCloseAux (stripOpenAux (text.getD ("")).toList)))

/-- Decomposition vocabulary for the amended claim C9: a string made of
footnote markup is an interleaving of tag-free text and complete footnote
tags.  `openTag attrs` renders `<footnote` ++ attrs ++ `>`, `closeTag`
renders `</footnote>`, `selfTag attrs` renders `<footnote` ++ attrs ++ `/>`. -/
inductive FootnoteChunk
  | text (t : List Char)
  | openTag (attrs : List Char)
  | closeTag
  | selfTag (attrs : List Char)
deriving Repr, DecidableEq

/-- Render one chunk to characters. -/
def renderChunk : FootnoteChunk → List Char
  | .text t => t
  | .openTag attrs => footnotePat ++ attrs ++ [ '>' ]
  | .closeTag => closePat
  | .selfTag attrs => footnotePat ++ attrs ++ [ '/', '>' ]

/-- Render a chunk list to characters. -/
def renderChunks : List FootnoteChunk → List Char
  | [] => []
  | ch :: cs => renderChunk ch ++ renderChunks cs

/-- Well-formedness of one chunk: text is `<`-free; an open tag's attribute
text is nonempty, starts with whitespace (the regex requires `\s+`) and
contains neither `>` nor `<`; a self-closing tag's attribute text does not
start with whitespace (otherwise it renders an open tag) and contains
neither `>` nor `<`. -/
def chunkOK : FootnoteChunk → Bool
  | .text t => t.all (fun c => c != '<')
  | .openTag attrs =>
    (match attrs with
     | [] => false
     | a :: _ => isJsSpace a) && attrs.all (fun c => c != '>' && c != '<')
  | .closeTag => true
  | .selfTag attrs =>
    (match attrs with
     | [] => true
     | a :: _ => !isJsSpace a) && attrs.all (fun c => c != '>' && c != '<')

/-- A chunk list all of whose chunks are well formed. -/
def WellFormedMarkup (cs : List FootnoteChunk) : Prop :=
  ∀ ch ∈ cs, chunkOK ch = true

/-- The concatenation of the text chunks: what remains once every tag is
removed. -/
def textContent : List FootnoteChunk → List Char
  | [] => []
  | .text t :: cs => t ++ textContent cs
  | _ :: cs => textContent cs

/-- Drop the open-tag chunks (what the first replace removes). -/
def dropOpenTags : List FootnoteChunk → List FootnoteChunk
  | [] => []
  | .openTag _ :: cs => dropOpenTags cs
  | ch :: cs => ch :: dropOpenTags cs

/-- Drop the closing-tag chunks (what the second replace removes). -/
def dropCloseTags : List FootnoteChunk → List FootnoteChunk
  | [] => []
  | .closeTag :: cs => dropCloseTags cs
  | ch :: cs => ch :: dropCloseTags cs

/-- Chunks surviving the first two passes: text and self-closing tags. -/
def isTextOrSelf : FootnoteChunk → Bool
  | .text _ => true
  | .selfTag _ => true
  | _ => false

/- ===================== Theorems ===================== -/

/-- Claim C1 (amended): `executeQuranQuery` never throws.  When the base URL
is unset, the fetch throws, or the body does not report success, the result
has `success = false`, `data = none`, `count = 0` and an error message that
is present; the message is non-empty except in the one case where the fetch
throws an `Error` whose own message is empty, in which case that empty
message is returned verbatim.  When the body reports success the result is
`success = true` with the body's data and count. -/
theorem executeQuranQuery_error_contract {α : Type} (apiBaseUrl : Option String)
    (outcome : FetchOutcome α) :
    ((executeQuranQuery apiBaseUrl outcome).success = false →
      (executeQuranQuery apiBaseUrl outcome).data = none ∧
      (executeQuranQuery apiBaseUrl outcome).count = 0 ∧
      ∃ m, (executeQuranQuery apiBaseUrl outcome).error = some m) ∧
    ((executeQuranQuery apiBaseUrl outcome).success = true →
      ∃ body, outcome = FetchOutcome.ok body ∧ body.success = true ∧ apiBaseUrl ≠ none ∧
        (executeQuranQuery apiBaseUrl outcome).data = body.data ∧
        (executeQuranQuery apiBaseUrl outcome).count = body.count ∧
        (executeQuranQuery apiBaseUrl outcome).error = none) ∧
    (∀ (u : String) (body : QueryResponseBody α), apiBaseUrl = some u →
      outcome = FetchOutcome.ok body → body.success = true →
      executeQuranQuery apiBaseUrl outcome
        = { success := true, data := body.data, count := body.count, error := none }) ∧
    (∀ m, (executeQuranQuery apiBaseUrl outcome).error = some m →
      m ≠ ("") ∨ outcome = FetchOutcome.thrownError ("")) := by
  rcases apiBaseUrl with _ | u
  · refine ⟨fun _ => ⟨rfl, rfl, ⟨_, rfl⟩⟩, fun h => Bool.noConfusion h,
      fun v body hu _ _ => Option.noConfusion hu, fun m hm => ?_⟩
    have hm2 : ("Missing EXPO_PUBLIC_QURAN_API_BASE_URL") = m := Option.some.inj hm
    exact Or.inl (by rw [← hm2]; decide)
  · rcases outcome with body | msg | _
    · by_cases hs : body.success
      · have hr : executeQuranQuery (some u) (FetchOutcome.ok body)
            = { success := true, data := body.data, count := body.count, error := none } := by
          simp [executeQuranQuery, hs]
        rw [hr]
        refine ⟨fun h => Bool.noConfusion h,
          fun _ => ⟨body, rfl, hs, by simp, rfl, rfl, rfl⟩,
          fun v body2 _ hob _ => ?_,
          fun m hm => Option.noConfusion hm⟩
        injection hob with h2
        rw [← h2]
      · have hr : executeQuranQuery (some u) (FetchOutcome.ok body)
            = { success := false, data := none, count := 0,
                error := some (if body.message = ("") then ("Query failed")
                               else body.message) } := by
          simp [executeQuranQuery, hs]
        rw [hr]
        refine ⟨fun _ => ⟨rfl, rfl, ⟨_, rfl⟩⟩, fun h => Bool.noConfusion h,
          fun v body2 _ hob hbs => ?_, fun m hm => ?_⟩
        · injection hob with h2
          rw [← h2] at hbs
          exact absurd hbs hs
        · have hm2 : (if body.message = ("") then ("Query failed") else body.message) = m :=
            Option.some.inj hm
          subst hm2
          left
          by_cases hmsg : body.message = ("")
          · rw [if_pos hmsg]; decide
          · rw [if_neg hmsg]; exact hmsg
    · refine ⟨fun _ => ⟨rfl, rfl, ⟨_, rfl⟩⟩, fun h => Bool.noConfusion h,
        fun v body2 _ hob _ => FetchOutcome.noConfusion hob, fun m hm => ?_⟩
      have hm2 : msg = m := Option.some.inj hm
      subst hm2
      by_cases hmsg : msg = ("")
      · exact Or.inr (by rw [hmsg])
      · exact Or.inl hmsg
    · refine ⟨fun _ => ⟨rfl, rfl, ⟨_, rfl⟩⟩, fun h => Bool.noConfusion h,
        fun v body2 _ hob _ => FetchOutcome.noConfusion hob, fun m hm => ?_⟩
      have hm2 : ("Network error") = m := Option.some.inj hm
      exact Or.inl (by rw [← hm2]; decide)

/-- Witness for `executeQuranQuery_error_contract` at concrete inputs: a
failing fetch yields null data, zero count and an error message, and a
success-reporting body with the base URL set yields `success = true` with
that body's data and count. -/
theorem executeQuranQuery_error_contract_witness :
    ((executeQuranQuery (some ("u")) (FetchOutcome.thrownOther : FetchOutcome Nat)).data = none ∧
     (executeQuranQuery (some ("u")) (FetchOutcome.thrownOther : FetchOutcome Nat)).count = 0 ∧
     ∃ m, (executeQuranQuery (some ("u")) (FetchOutcome.thrownOther : FetchOutcome Nat)).error
          = some m) ∧
    executeQuranQuery (some ("u"))
        (FetchOutcome.ok ({ success := true, data := some 5, count := 1,
                            message := ("") } : QueryResponseBody Nat))
      = { success := true, data := some 5, count := 1, error := none } :=
  ⟨(executeQuranQuery_error_contract (some ("u"))
      (FetchOutcome.thrownOther : FetchOutcome Nat)).1 (by decide),
   (executeQuranQuery_error_contract (some ("u"))
      (FetchOutcome.ok ({ success := true, data := some 5, count := 1,
                          message := ("") } : QueryResponseBody Nat))).2.2.1
      ("u") ({ success := true, data := some 5, count := 1, message := ("") })
      rfl rfl rfl⟩

/-- Counterexample to claim C1 as stated: when the fetch throws an `Error`
whose message is the empty string, the returned result's error message is
the empty string, not a non-empty one. -/
theorem executeQuranQuery_empty_error_cex :
    (executeQuranQuery (some ("u")) (FetchOutcome.thrownError (("" : String)))
        : QueryResult Nat)
      = { success := false, data := none, count := 0, error := some ("") } := by
  decide

/-- Claim C2: the subscription-status cache is a TTL cache.  After
`cacheSubscription u s` at time `tWrite`, a `getCachedSubscription u` read at
`tRead` at most the stored expiry `tWrite + 3600000` returns `s` and leaves
the storage unchanged; a read past the expiry, or a read for a different
user id, removes both cache keys and returns `none`. -/
theorem subscriptionCache_ttl (u reqU : String) (s : StripeSubscriptions)
    (tWrite tRead : Nat) (st : SubscriptionCacheState) :
    (tRead ≤ tWrite + CACHE_DURATION_MS →
      getCachedSubscription tRead u (cacheSubscription tWrite u s st)
        = (some s, cacheSubscription tWrite u s st)) ∧
    (tWrite + CACHE_DURATION_MS < tRead →
      getCachedSubscription tRead u (cacheSubscription tWrite u s st)
        = (none, { cached := none, expiry := none })) ∧
    (reqU ≠ u →
      getCachedSubscription tRead reqU (cacheSubscription tWrite u s st)
        = (none, { cached := none, expiry := none })) := by
  refine ⟨fun h => ?_, fun h => ?_, fun h => ?_⟩
  · simp [getCachedSubscription, cacheSubscription, Nat.not_lt.mpr h]
  · simp [getCachedSubscription, cacheSubscription, h]
  · by_cases hexp : tWrite + CACHE_DURATION_MS < tRead
    · simp [getCachedSubscription, cacheSubscription, hexp]
    · simp [getCachedSubscription, cacheSubscription, hexp]
      exact fun hh => h hh.symm

/-- Witness for `subscriptionCache_ttl`: a fresh read within the TTL returns
the cached value. -/
theorem subscriptionCache_ttl_witness :
    getCachedSubscription 100 ("a")
        (cacheSubscription 0 ("a") DEFAULT_SUBSCRIPTIONS { cached := none, expiry := none })
      = (some DEFAULT_SUBSCRIPTIONS,
         cacheSubscription 0 ("a") DEFAULT_SUBSCRIPTIONS { cached := none, expiry := none }) :=
  (subscriptionCache_ttl ("a") ("b") DEFAULT_SUBSCRIPTIONS 0 100
    { cached := none, expiry := none }).1 (by decide)

/-- Claim C3: `findCurrentVerseTiming` returns `none` exactly when no timing
contains the playback time, and otherwise returns the first timing in list
order whose half-open interval `[timestamp_from, timestamp_to)` contains it
(every earlier timing does not contain it). -/
theorem findCurrentVerseTiming_spec (t : Int) (timings : List VerseTiming) :
    (findCurrentVerseTiming t timings = none ↔ ∀ v ∈ timings, ¬ coversTime t v) ∧
    (∀ v, findCurrentVerseTiming t timings = some v →
      coversTime t v ∧
      ∃ pre post, timings = pre ++ v :: post ∧ ∀ u ∈ pre, ¬ coversTime t u) := by
  induction timings with
  | nil => simp [findCurrentVerseTiming]
  | cons hd tl ih =>
    by_cases hc : t ≥ hd.timestamp_from ∧ t < hd.timestamp_to
    · constructor
      · rw [findCurrentVerseTiming, if_pos hc]
        constructor
        · intro h; exact Option.noConfusion h
        · intro hall; exact absurd ⟨hc.1, hc.2⟩ (hall hd (List.mem_cons_self hd tl))
      · intro v hv
        rw [findCurrentVerseTiming, if_pos hc, Option.some.injEq] at hv
        subst hv
        exact ⟨⟨hc.1, hc.2⟩, [], tl, rfl, by simp⟩
    · have hncov : ¬ coversTime t hd := fun hcov => hc ⟨hcov.1, hcov.2⟩
      constructor
      · rw [findCurrentVerseTiming, if_neg hc, ih.1]
        constructor
        · intro hall v hv
          rcases List.mem_cons.mp hv with hv | hv
          · subst hv; exact hncov
          · exact hall v hv
        · intro hall v hv
          exact hall v (List.mem_cons_of_mem hd hv)
      · intro v hv
        rw [findCurrentVerseTiming, if_neg hc] at hv
        obtain ⟨hcov, pre, post, heq, hpre⟩ := ih.2 v hv
        refine ⟨hcov, hd :: pre, post, by rw [heq]; rfl, ?_⟩
        intro u hu
        rcases List.mem_cons.mp hu with hu | hu
        · subst hu; exact hncov
        · exact hpre u hu

/-- Witness for `findCurrentVerseTiming_spec`: with a single timing covering
[0, 5), time 2 is matched by that timing with an empty earlier segment. -/
theorem findCurrentVerseTiming_spec_witness :
    coversTime 2 { verse_key := ("1:1"), timestamp_from := 0, timestamp_to := 5,
                   segments := [] } ∧
    ∃ pre post,
      [({ verse_key := ("1:1"), timestamp_from := 0, timestamp_to := 5,
          segments := [] } : VerseTiming)]
        = pre ++ ({ verse_key := ("1:1"), timestamp_from := 0, timestamp_to := 5,
                    segments := [] } : VerseTiming) :: post ∧
      ∀ u ∈ pre, ¬ coversTime 2 u :=
  (findCurrentVerseTiming_spec 2
      [{ verse_key := ("1:1"), timestamp_from := 0, timestamp_to := 5, segments := [] }]).2
    { verse_key := ("1:1"), timestamp_from := 0, timestamp_to := 5, segments := [] }
    (by decide)

/-- Claim C10: `fetchSurahAudio` fails with an error, and performs no network
request, whenever the surah id is outside 1..114 or the Supabase environment
configuration is missing; the range check happens before any fetch. -/
theorem fetchSurahAudio_precondition (cfgUrl cfgKey : Option String) (surahId : Int)
    (net : AudioNetOutcome)
    (h : surahId < 1 ∨ 114 < surahId ∨ cfgUrl = none ∨ cfgKey = none) :
    (∃ e, (fetchSurahAudio cfgUrl cfgKey surahId net).1 = Except.error e) ∧
    (fetchSurahAudio cfgUrl cfgKey surahId net).2 = false := by
  unfold fetchSurahAudio
  by_cases hcfg : cfgUrl.isNone ∨ cfgKey.isNone
  · rw [if_pos hcfg]
    exact ⟨⟨_, rfl⟩, rfl⟩
  · have hrange : surahId < 1 ∨ surahId > 114 := by
      rcases h with h | h | h | h
      · exact Or.inl h
      · exact Or.inr h
      · exact absurd (Or.inl (by rw [h]; rfl)) hcfg
      · exact absurd (Or.inr (by rw [h]; rfl)) hcfg
    rw [if_neg hcfg, if_pos hrange]
    exact ⟨⟨_, rfl⟩, rfl⟩

/-- Witness for `fetchSurahAudio_precondition` at surah id 0: an error is
returned and no request is made. -/
theorem fetchSurahAudio_precondition_witness :
    (∃ e, (fetchSurahAudio (some ("u")) (some ("k")) 0 (AudioNetOutcome.notOk 200 ("OK"))).1
        = Except.error e) ∧
    (fetchSurahAudio (some ("u")) (some ("k")) 0 (AudioNetOutcome.notOk 200 ("OK"))).2
        = false :=
  fetchSurahAudio_precondition (some ("u")) (some ("k")) 0 (AudioNetOutcome.notOk 200 ("OK"))
    (by decide)

/-- Specification of the candidate scan on a sorted key list with offsets
monotone in the verse number: if some verse qualifies (offset at most the
viewport top) the scan returns the largest qualifying verse; if none does it
returns the initial candidate. -/
theorem scanCandidate_spec (off : Nat → Int) (top : Int) (l : List Nat) :
    ∀ (c : Nat), l.Sorted (· ≤ ·) →
      (∀ a ∈ l, ∀ b ∈ l, a ≤ b → off a ≤ off b) →
      (∀ x ∈ l, c ≤ x) →
      ((∀ v ∈ l, ¬ off v ≤ top) → scanCandidate off top c l = c) ∧
      ((∃ v ∈ l, off v ≤ top) →
        scanCandidate off top c l ∈ l ∧ off (scanCandidate off top c l) ≤ top ∧
        ∀ v ∈ l, off v ≤ top → v ≤ scanCandidate off top c l) := by
  induction l with
  | nil =>
    intro c _ _ _
    refine ⟨fun _ => rfl, ?_⟩
    rintro ⟨v, hv, _⟩
    exact absurd hv (List.not_mem_nil v)
  | cons v rest ih =>
    intro c hsort hmono hc
    have hv_le : ∀ b ∈ rest, v ≤ b := (List.sorted_cons.mp hsort).1
    have hrest_sorted : rest.Sorted (· ≤ ·) := (List.sorted_cons.mp hsort).2
    have hmono_rest : ∀ a ∈ rest, ∀ b ∈ rest, a ≤ b → off a ≤ off b :=
      fun a ha b hb => hmono a (List.mem_cons_of_mem v ha) b (List.mem_cons_of_mem v hb)
    by_cases hov : off v ≤ top
    · have hstep : scanCandidate off top c (v :: rest) = scanCandidate off top v rest := by
        rw [scanCandidate, if_pos hov]
      obtain ⟨ihA, ihB⟩ := ih v hrest_sorted hmono_rest hv_le
      constructor
      · intro hall
        exact absurd hov (hall v (List.mem_cons_self v rest))
      · intro _
        by_cases hex : ∃ u ∈ rest, off u ≤ top
        · obtain ⟨hmem, hofr, hmax⟩ := ihB hex
          rw [hstep]
          refine ⟨List.mem_cons_of_mem v hmem, hofr, ?_⟩
          intro w hw how
          rcases List.mem_cons.mp hw with hw | hw
          · subst hw
            exact hv_le _ hmem
          · exact hmax w hw how
        · have hallr : ∀ u ∈ rest, ¬ off u ≤ top := by
            intro u hu hou
            exact hex ⟨u, hu, hou⟩
          rw [hstep, ihA hallr]
          refine ⟨List.mem_cons_self v rest, hov, ?_⟩
          intro w hw how
          rcases List.mem_cons.mp hw with hw | hw
          · exact le_of_eq hw
          · exact absurd how (hallr w hw)
    · have hstep : scanCandidate off top c (v :: rest) = c := by
        rw [scanCandidate, if_neg hov]
      refine ⟨fun _ => hstep, ?_⟩
      rintro ⟨w, hw, how⟩
      exfalso
      rcases List.mem_cons.mp hw with hweq | hwr
      · subst hweq; exact hov how
      · exact hov (le_trans
          (hmono v (List.mem_cons_self v rest) w (List.mem_cons_of_mem v hwr) (hv_le w hwr))
          how)

/-- Claim C4 (amended): `getLastViewedVerse` returns `none` exactly when the
offset map is empty; and provided the recorded offsets are nondecreasing in
the verse number (as holds for verses laid out in order), it returns the
largest recorded verse whose offset is at most
`viewportTop = scrollY + insets.top + 56 + 12` when one qualifies, and the
smallest recorded verse when none qualifies. -/
theorem getLastViewedVerse_spec (scrollY insetTop : Int) (keys : List Nat)
    (off : Nat → Int)
    (hmono : ∀ a ∈ keys, ∀ b ∈ keys, a ≤ b → off a ≤ off b) :
    (getLastViewedVerse scrollY insetTop keys off = none ↔ keys = []) ∧
    ((∃ v ∈ keys, off v ≤ scrollY + insetTop + 56 + 12) →
      ∃ m, getLastViewedVerse scrollY insetTop keys off = some m ∧
        m ∈ keys ∧ off m ≤ scrollY + insetTop + 56 + 12 ∧
        ∀ v ∈ keys, off v ≤ scrollY + insetTop + 56 + 12 → v ≤ m) ∧
    ((∀ v ∈ keys, ¬ off v ≤ scrollY + insetTop + 56 + 12) → keys ≠ [] →
      ∃ m, getLastViewedVerse scrollY insetTop keys off = some m ∧
        m ∈ keys ∧ ∀ v ∈ keys, m ≤ v) := by
  have hperm : (List.insertionSort (· ≤ ·) keys).Perm keys :=
    List.perm_insertionSort (· ≤ ·) keys
  have hsorted : (List.insertionSort (· ≤ ·) keys).Sorted (· ≤ ·) :=
    List.sorted_insertionSort (· ≤ ·) keys
  rcases hsor : List.insertionSort (· ≤ ·) keys with _ | ⟨v0, rest⟩
  · rw [hsor] at hperm
    have hkeys : keys = [] := hperm.symm.eq_nil
    have hres : getLastViewedVerse scrollY insetTop keys off = none := by
      rw [getLastViewedVerse, hsor]
    refine ⟨⟨fun _ => hkeys, fun _ => hres⟩, ?_, ?_⟩
    · rintro ⟨v, hv, _⟩
      rw [hkeys] at hv
      exact absurd hv (List.not_mem_nil v)
    · intro _ hne
      exact absurd hkeys hne
  · rw [hsor] at hperm hsorted
    have hmem_iff : ∀ x, x ∈ v0 :: rest ↔ x ∈ keys := fun x => hperm.mem_iff
    have hkne : keys ≠ [] := by
      intro h
      rw [h] at hperm
      exact absurd hperm.eq_nil (List.cons_ne_nil v0 rest)
    have hres : getLastViewedVerse scrollY insetTop keys off
        = some (scanCandidate off (scrollY + insetTop + 56 + 12) v0 (v0 :: rest)) := by
      rw [getLastViewedVerse, hsor]
    have hmono_s : ∀ a ∈ v0 :: rest, ∀ b ∈ v0 :: rest, a ≤ b → off a ≤ off b :=
      fun a ha b hb => hmono a ((hmem_iff a).mp ha) b ((hmem_iff b).mp hb)
    have hc : ∀ x ∈ v0 :: rest, v0 ≤ x := by
      intro x hx
      rcases List.mem_cons.mp hx with hx | hx
      · exact hx.ge
      · exact (List.sorted_cons.mp hsorted).1 x hx
    obtain ⟨specA, specB⟩ :=
      scanCandidate_spec off (scrollY + insetTop + 56 + 12) (v0 :: rest) v0
        hsorted hmono_s hc
    refine ⟨⟨fun h => absurd h (by rw [hres]; exact Option.noConfusion), fun h => absurd h hkne⟩,
      ?_, ?_⟩
    · rintro ⟨v, hv, hvle⟩
      obtain ⟨hmem, hle, hmax⟩ := specB ⟨v, (hmem_iff v).mpr hv, hvle⟩
      refine ⟨scanCandidate off (scrollY + insetTop + 56 + 12) v0 (v0 :: rest),
        hres, (hmem_iff _).mp hmem, hle, ?_⟩
      intro w hw how
      exact hmax w ((hmem_iff w).mpr hw) how
    · intro hall _
      have halls : ∀ v ∈ v0 :: rest, ¬ off v ≤ scrollY + insetTop + 56 + 12 :=
        fun v hv => hall v ((hmem_iff v).mp hv)
      rw [specA halls] at hres
      refine ⟨v0, hres, (hmem_iff v0).mp (List.mem_cons_self v0 rest), ?_⟩
      intro w hw
      exact hc w ((hmem_iff w).mpr hw)

/-- Witness for `getLastViewedVerse_spec`: with monotone offsets 10 and 20
and viewport top 68, the largest qualifying verse (2) is returned. -/
theorem getLastViewedVerse_spec_witness :
    ∃ m, getLastViewedVerse 0 0 [1, 2] demoVerseOffsets = some m ∧
      m ∈ [1, 2] ∧ demoVerseOffsets m ≤ 0 + 0 + 56 + 12 ∧
      ∀ v ∈ [1, 2], demoVerseOffsets v ≤ 0 + 0 + 56 + 12 → v ≤ m :=
  (getLastViewedVerse_spec 0 0 [1, 2] demoVerseOffsets (by decide)).2.1
    ⟨1, by decide, by decide⟩

/-- Counterexample to claim C4 as stated: with offsets 0, 100, 50 for verses
1, 2, 3 and viewport top 68, verse 3 qualifies (50 <= 68) and is the largest
qualifying verse, yet the function returns verse 1 because the loop breaks
at verse 2. -/
theorem getLastViewedVerse_nonMonotone_cex :
    getLastViewedVerse 0 0 [1, 2, 3] cexOffsets = some 1 ∧
    cexOffsets 3 ≤ 0 + 0 + 56 + 12 ∧ (3 : Nat) ∈ [1, 2, 3] ∧ (1 : Nat) ≠ 3 := by
  decide

/-- The status handler enforces the single-verse boundary: in any provider
state carrying an end boundary, a loaded status whose position has reached
the boundary makes the handler pause the sound, set the playback state to
paused, and clear both single-verse mode and the boundary. -/
theorem onPlaybackStatusUpdate_boundary (verseTimings : List VerseTiming)
    (st : AudioState) (status : AudioStatus) (endTime : Int)
    (hend : st.singleVerseEndTime = some endTime)
    (hl : status.isLoaded = true)
    (hpos : endTime ≤ status.positionMillis) :
    (onPlaybackStatusUpdate verseTimings st status).pauseRequested = true ∧
    (onPlaybackStatusUpdate verseTimings st status).playbackState = PlaybackState.paused ∧
    (onPlaybackStatusUpdate verseTimings st status).isSingleVerseMode = false ∧
    (onPlaybackStatusUpdate verseTimings st status).singleVerseEndTime = none := by
  rcases st with ⟨pb, svm, svet, cvk, ctm, dm, pr⟩
  simp only at hend
  subst hend
  rcases status with ⟨l, pos, dur, playing, finish⟩
  simp only at hl hpos
  subst hl
  cases playing
  · by_cases hp0 : pos > 0 ∧ finish = false
    · simp [onPlaybackStatusUpdate, hp0, hpos, ge_iff_le]
    · simp [onPlaybackStatusUpdate, hp0, hpos, ge_iff_le]
  · by_cases hlen : verseTimings.length > 0
    · cases hfind : findCurrentVerseTiming pos verseTimings with
      | none => simp [onPlaybackStatusUpdate, hlen, hfind, hpos, ge_iff_le]
      | some t2 =>
        by_cases hkey : some t2.verse_key = cvk
        · simp [onPlaybackStatusUpdate, hlen, hfind, hkey, hpos, ge_iff_le]
        · simp [onPlaybackStatusUpdate, hlen, hfind, hkey, hpos, ge_iff_le]
    · simp [onPlaybackStatusUpdate, hlen, hpos, ge_iff_le]

/-- Claim C5: in single-verse mode playback never continues past the verse's
end boundary.  A successful `playVerse` on a loaded surah sets the
single-verse end time to the verse's `timestamp_to`, and every subsequent
loaded status update whose position is at or past that boundary pauses the
sound, sets the playback state to paused, and clears both single-verse mode
and the boundary. -/
theorem playVerse_singleVerse_boundary (surahId verseNumber : Nat) (url : String)
    (verseTimings : List VerseTiming) (st : AudioState) (timing : VerseTiming)
    (ht : getVerseTimingByNumber surahId verseNumber verseTimings = some timing) :
    ((playVerse (some surahId) (some url) verseTimings true surahId verseNumber
        st).1.singleVerseEndTime = some timing.timestamp_to) ∧
    (∀ (st2 : AudioState) (status : AudioStatus),
      st2.singleVerseEndTime = some timing.timestamp_to →
      status.isLoaded = true →
      timing.timestamp_to ≤ status.positionMillis →
      (onPlaybackStatusUpdate verseTimings st2 status).pauseRequested = true ∧
      (onPlaybackStatusUpdate verseTimings st2 status).playbackState
          = PlaybackState.paused ∧
      (onPlaybackStatusUpdate verseTimings st2 status).isSingleVerseMode = false ∧
      (onPlaybackStatusUpdate verseTimings st2 status).singleVerseEndTime = none) := by
  constructor
  · simp [playVerse, ht]
  · intro st2 status hend hl hpos
    exact onPlaybackStatusUpdate_boundary verseTimings st2 status timing.timestamp_to
      hend hl hpos

/-- Witness for `playVerse_singleVerse_boundary` on a one-verse timing list. -/
theorem playVerse_singleVerse_boundary_witness :
    ((playVerse (some 1) (some ("u")) [demoVerseTiming] true 1 1
        demoAudioState).1.singleVerseEndTime = some demoVerseTiming.timestamp_to) ∧
    (∀ (st2 : AudioState) (status : AudioStatus),
      st2.singleVerseEndTime = some demoVerseTiming.timestamp_to →
      status.isLoaded = true →
      demoVerseTiming.timestamp_to ≤ status.positionMillis →
      (onPlaybackStatusUpdate [demoVerseTiming] st2 status).pauseRequested = true ∧
      (onPlaybackStatusUpdate [demoVerseTiming] st2 status).playbackState
          = PlaybackState.paused ∧
      (onPlaybackStatusUpdate [demoVerseTiming] st2 status).isSingleVerseMode = false ∧
      (onPlaybackStatusUpdate [demoVerseTiming] st2 status).singleVerseEndTime = none) :=
  playVerse_singleVerse_boundary 1 1 ("u") [demoVerseTiming] demoAudioState
    demoVerseTiming (by decide)

/-- Claim C6 (amended): bookmark mutations roll back on backend failure.
When the insert fails, the optimistic bookmark is filtered out by its
temporary id, restoring the previous list provided no pre-existing bookmark
carries the same `temp-<now>` id (any that do are removed with it); when the
delete fails the saved copy is restored, so the list always equals its value
before the call. -/
theorem bookmarkMutation_rollback (now : Nat) (nowIso : String)
    (surahNumber verseNumber : Nat) (note : Option String)
    (bookmarks : List Bookmark)
    (hfresh : ∀ b ∈ bookmarks, b.id ≠ tempBookmarkId now) :
    addBookmark true true now nowIso surahNumber verseNumber note bookmarks
      = bookmarks ∧
    removeBookmark true true surahNumber verseNumber bookmarks = bookmarks := by
  constructor
  · show ((⟨tempBookmarkId now, surahNumber, verseNumber, note, nowIso⟩ : Bookmark)
        :: bookmarks).filter (fun b => !(b.id == tempBookmarkId now)) = bookmarks
    rw [List.filter_cons]
    simp only [beq_self_eq_true, Bool.not_true, Bool.false_eq_true, if_false]
    apply List.filter_eq_self.mpr
    intro b hb
    simp only [Bool.not_eq_true', beq_eq_false_iff_ne, ne_eq]
    exact hfresh b hb
  · rfl

/-- Witness for `bookmarkMutation_rollback` on a list holding one ordinary
bookmark. -/
theorem bookmarkMutation_rollback_witness :
    addBookmark true true 5 ("now") 1 1 none
        [{ id := ("b1"), surah_number := 2, verse_number := 2, note := none,
           created_at := ("c") }]
      = [{ id := ("b1"), surah_number := 2, verse_number := 2, note := none,
           created_at := ("c") }] ∧
    removeBookmark true true 1 1
        [{ id := ("b1"), surah_number := 2, verse_number := 2, note := none,
           created_at := ("c") }]
      = [{ id := ("b1"), surah_number := 2, verse_number := 2, note := none,
           created_at := ("c") }] :=
  bookmarkMutation_rollback 5 ("now") 1 1 none
    [{ id := ("b1"), surah_number := 2, verse_number := 2, note := none,
       created_at := ("c") }] (by decide)

/-- Counterexample to claim C6 as stated: if the list already contains a
bookmark whose id is `temp-5` and a failing `addBookmark` runs at
`Date.now() = 5`, the rollback filter also removes the pre-existing
bookmark, so the list does not equal its value before the call. -/
theorem addBookmark_rollback_cex :
    addBookmark true true 5 ("now") 1 1 none
        [{ id := ("temp-5"), surah_number := 2, verse_number := 2, note := none,
           created_at := ("c") }]
      = [] ∧
    ([{ id := ("temp-5"), surah_number := 2, verse_number := 2, note := none,
        created_at := ("c") }] : List Bookmark) ≠ [] := by
  decide

/-- A single unforced (or completion) event preserves the in-flight
invariant. -/
theorem checkInv_unforced_step (st : CheckConcurrencyState) (e : CheckEvent)
    (hInv : CheckInv st)
    (hUnf : ∀ hs f, e = CheckEvent.call hs f → f = false) :
    CheckInv (checkStep st e) := by
  rcases e with ⟨hs, f⟩ | id
  · have hf : f = false := hUnf hs f rfl
    subst hf
    cases hs
    · have hstep : checkStep st (CheckEvent.call false false) = st := by
        simp [checkStep]
      rw [hstep]
      exact hInv
    · rcases hsf : st.inFlight with _ | p
      · have hrun : st.running = [] := hInv.1 hsf
        have hstep : checkStep st (CheckEvent.call true false)
            = { inFlight := some st.nextId, running := st.nextId :: st.running,
                nextId := st.nextId + 1 } := by
          simp [checkStep, hsf]
        rw [hstep]
        constructor
        · intro h
          exact Option.noConfusion h
        · intro p hp
          have hpid : st.nextId = p := Option.some.inj hp
          subst hpid
          rw [hrun]
      · have hstep : checkStep st (CheckEvent.call true false) = st := by
          simp [checkStep, hsf]
        rw [hstep]
        exact hInv
  · by_cases hmem : id ∈ st.running
    · have hstep : checkStep st (CheckEvent.complete id)
          = { st with running := st.running.erase id, inFlight := none } := by
        simp [checkStep, hmem]
      rw [hstep]
      constructor
      · intro _
        rcases hsf : st.inFlight with _ | p
        · rw [hInv.1 hsf]
          rfl
        · have hrun : st.running = [p] := hInv.2 p hsf
          have hid : id = p := by
            rw [hrun] at hmem
            simpa using hmem
          rw [hrun, hid]
          simp
      · intro q hq
        exact Option.noConfusion hq
    · have hstep : checkStep st (CheckEvent.complete id) = st := by
        simp [checkStep, hmem]
      rw [hstep]
      exact hInv

/-- The in-flight invariant holds along every unforced trace. -/
theorem checkInv_foldl :
    ∀ (evs : List CheckEvent) (st : CheckConcurrencyState),
      CheckInv st → UnforcedTrace evs → CheckInv (evs.foldl checkStep st) := by
  intro evs
  induction evs with
  | nil =>
    intro st h _
    exact h
  | cons e rest ih =>
    intro st h hUnf
    have he : ∀ hs f, e = CheckEvent.call hs f → f = false := by
      intro hs f hef
      exact hUnf hs f (by rw [← hef]; exact List.mem_cons_self e rest)
    have hrest : UnforcedTrace rest :=
      fun hs f hmem => hUnf hs f (List.mem_cons_of_mem e hmem)
    exact ih (checkStep st e) (checkInv_unforced_step st e h he) hrest

/-- Claim C7: at most one subscription check is in flight at a time unless
forced.  After any unforced trace with a pending check `p`, a further
unforced call returns that same pending promise and changes nothing (no new
check starts), and the in-flight slot becomes empty exactly on the event
that completes the running check (whether it succeeded or threw). -/
theorem checkSubscription_inflight_dedup (evs : List CheckEvent)
    (hUnf : UnforcedTrace evs) :
    ∀ p, (evs.foldl checkStep checkInit).inFlight = some p →
      (checkStep (evs.foldl checkStep checkInit) (CheckEvent.call true false)
          = evs.foldl checkStep checkInit ∧
       checkCallResult (evs.foldl checkStep checkInit) true false = some p) ∧
      (∀ e, (checkStep (evs.foldl checkStep checkInit) e).inFlight = none ↔
          e = CheckEvent.complete p) := by
  intro p hp
  have hInv : CheckInv (evs.foldl checkStep checkInit) :=
    checkInv_foldl evs checkInit
      ⟨fun _ => rfl, fun q hq => Option.noConfusion hq⟩ hUnf
  have hrun : (evs.foldl checkStep checkInit).running = [p] := hInv.2 p hp
  refine ⟨⟨?_, ?_⟩, ?_⟩
  · simp [checkStep, hp]
  · simp [checkCallResult, hp]
  · intro e
    constructor
    · intro hcleared
      rcases e with ⟨hs, f⟩ | id
      · exfalso
        cases hs
        · have heq : checkStep (evs.foldl checkStep checkInit)
              (CheckEvent.call false f) = evs.foldl checkStep checkInit := by
            simp [checkStep]
          rw [heq] at hcleared
          exact Option.noConfusion (hp.symm.trans hcleared)
        · cases f
          · have heq : checkStep (evs.foldl checkStep checkInit)
                (CheckEvent.call true false) = evs.foldl checkStep checkInit := by
              simp [checkStep, hp]
            rw [heq] at hcleared
            exact Option.noConfusion (hp.symm.trans hcleared)
          · have heq : (checkStep (evs.foldl checkStep checkInit)
                (CheckEvent.call true true)).inFlight
                = some (evs.foldl checkStep checkInit).nextId := by
              simp [checkStep, hp]
            exact Option.noConfusion (heq.symm.trans hcleared)
      · by_cases hmem : id ∈ (evs.foldl checkStep checkInit).running
        · have hid : id = p := by
            rw [hrun] at hmem
            simpa using hmem
          rw [hid]
        · have heq : checkStep (evs.foldl checkStep checkInit)
              (CheckEvent.complete id) = evs.foldl checkStep checkInit := by
            simp [checkStep, hmem]
          rw [heq] at hcleared
          exact absurd (hp.symm.trans hcleared) (fun h => Option.noConfusion h)
    · intro he
      subst he
      have hmem : p ∈ (evs.foldl checkStep checkInit).running := by
        rw [hrun]
        exact List.mem_cons_self p []
      simp [checkStep, hmem]

/-- Witness for `checkSubscription_inflight_dedup`: after one authenticated
unforced call, check 0 is pending; a second unforced call is a no-op
returning promise 0, and only `complete 0` clears the slot. -/
theorem checkSubscription_inflight_dedup_witness :
    (checkStep (List.foldl checkStep checkInit [CheckEvent.call true false])
        (CheckEvent.call true false)
      = List.foldl checkStep checkInit [CheckEvent.call true false] ∧
     checkCallResult (List.foldl checkStep checkInit [CheckEvent.call true false])
        true false = some 0) ∧
    (∀ e, (checkStep (List.foldl checkStep checkInit [CheckEvent.call true false])
        e).inFlight = none ↔ e = CheckEvent.complete 0) :=
  checkSubscription_inflight_dedup [CheckEvent.call true false]
    (by
      intro hs f hmem
      have hcall := List.mem_singleton.mp hmem
      injection hcall)
    0 (by decide)

/-- Folding a step function that preserves a predicate preserves it. -/
theorem foldlPreserves {α β : Type} (P : α → Prop) (f : α → β → α)
    (hstep : ∀ a b, P a → P (f a b)) :
    ∀ (l : List β) (a : α), P a → P (l.foldl f a) := by
  intro l
  induction l with
  | nil =>
    intro a ha
    exact ha
  | cons x xs ih =>
    intro a ha
    exact ih (f a x) (hstep a x ha)

/-- A single plan match preserves the bundle-implies-parts invariant. -/
theorem applyPlanMatch_preserves (sub : IncomingSubscription)
    (acc : StripeSubscriptions) (plan : SubscriptionPlan)
    (h : BundleImpliesParts acc) :
    BundleImpliesParts (applyPlanMatch sub acc plan) := by
  rcases plan with ⟨pid, pt⟩
  by_cases hid : pid = some sub.product_id
  · cases pt
    · have hstep : applyPlanMatch sub acc ⟨pid, ProductType.read⟩
          = { acc with read := { subscribed := true,
                                 subscription_end := some sub.subscription_end } } := by
        simp [applyPlanMatch, hid]
      rw [hstep]
      intro hb
      exact ⟨rfl, (h hb).2⟩
    · have hstep : applyPlanMatch sub acc ⟨pid, ProductType.audiobook⟩
          = { acc with audiobook := { subscribed := true,
                                      subscription_end := some sub.subscription_end } } := by
        simp [applyPlanMatch, hid]
      rw [hstep]
      intro hb
      exact ⟨(h hb).1, rfl⟩
    · have hstep : applyPlanMatch sub acc ⟨pid, ProductType.bundle⟩
          = { acc with
              bundle := { subscribed := true,
                          subscription_end := some sub.subscription_end },
              read := { subscribed := true,
                        subscription_end := some sub.subscription_end },
              audiobook := { subscribed := true,
                             subscription_end := some sub.subscription_end } } := by
        simp [applyPlanMatch, hid]
      rw [hstep]
      intro _
      exact ⟨rfl, rfl⟩
  · have hstep : applyPlanMatch sub acc ⟨pid, pt⟩ = acc := by
      simp [applyPlanMatch, hid]
    rw [hstep]
    exact h

/-- Handling one incoming subscription preserves the bundle-implies-parts
invariant. -/
theorem applyIncomingSub_preserves (plans : List SubscriptionPlan)
    (acc : StripeSubscriptions) (sub : IncomingSubscription)
    (h : BundleImpliesParts acc) :
    BundleImpliesParts (applyIncomingSub plans acc sub) := by
  unfold applyIncomingSub
  by_cases hstat : sub.status = some ("canceled") ∨ sub.status = some ("cancelled")
  · rw [if_pos hstat]
    exact h
  · rw [if_neg hstat]
    exact foldlPreserves BundleImpliesParts (applyPlanMatch sub)
      (fun a b ha => applyPlanMatch_preserves sub a b ha) plans acc h

/-- Claim C8 (amended): every subscriptions value built by
`checkSubscription` satisfies bundle-implies-parts: a subscribed bundle
forces `read.subscribed` and `audiobook.subscribed`, hence `hasBundleAccess`
implies both `hasReadAccess` and `hasAudiobookAccess`.  (The end dates need
not agree: a separately matched read/audiobook subscription may overwrite
`subscription_end` after the bundle write.) -/
theorem buildSubscriptions_bundle_implies_parts (plans : List SubscriptionPlan)
    (subs : List IncomingSubscription) :
    ((buildSubscriptions plans subs).bundle.subscribed = true →
      (buildSubscriptions plans subs).read.subscribed = true ∧
      (buildSubscriptions plans subs).audiobook.subscribed = true) ∧
    (hasBundleAccess (buildSubscriptions plans subs) = true →
      hasReadAccess (buildSubscriptions plans subs) = true ∧
      hasAudiobookAccess (buildSubscriptions plans subs) = true) := by
  have hinv : BundleImpliesParts (buildSubscriptions plans subs) := by
    unfold buildSubscriptions
    exact foldlPreserves BundleImpliesParts (applyIncomingSub plans)
      (fun a b ha => applyIncomingSub_preserves plans a b ha) subs
      DEFAULT_SUBSCRIPTIONS (fun hb => Bool.noConfusion hb)
  refine ⟨hinv, fun hb => ?_⟩
  have hparts := hinv hb
  constructor
  · simp [hasReadAccess, hparts.1]
  · simp [hasAudiobookAccess, hparts.2]

/-- Witness for `buildSubscriptions_bundle_implies_parts` on the concrete
plan/subscription lists: the bundle subscription forces read and audiobook. -/
theorem buildSubscriptions_bundle_witness :
    (buildSubscriptions cexPlans cexSubs).read.subscribed = true ∧
    (buildSubscriptions cexPlans cexSubs).audiobook.subscribed = true :=
  (buildSubscriptions_bundle_implies_parts cexPlans cexSubs).1 (by decide)

/-- Counterexample to the parenthetical of claim C8 as stated: with a bundle
subscription ending 2031-01-01 processed before a separate read
subscription ending 2032-01-01, the bundle is subscribed but `read`'s
`subscription_end` differs from the bundle's. -/
theorem buildSubscriptions_end_mismatch_cex :
    (buildSubscriptions cexPlans cexSubs).bundle.subscribed = true ∧
    (buildSubscriptions cexPlans cexSubs).read.subscribed = true ∧
    (buildSubscriptions cexPlans cexSubs).read.subscription_end
      ≠ (buildSubscriptions cexPlans cexSubs).bundle.subscription_end := by
  decide

/-- A successful case-insensitive match consumes exactly the pattern's
length. -/
theorem matchCI_length : ∀ (p s r : List Char), matchCI p s = some r →
    s.length = p.length + r.length := by
  intro p
  induction p with
  | nil =>
    intro s r h
    simp only [matchCI, Option.some.injEq] at h
    subst h
    simp
  | cons pc ps ih =>
    intro s r h
    cases s with
    | nil => simp [matchCI] at h
    | cons c cs =>
      by_cases hcm : charMatchCI pc c = true
      · simp only [matchCI, hcm, if_true] at h
        have := ih cs r h
        simp [List.length_cons, this]
        omega
      · simp [matchCI, hcm] at h

/-- A pattern matches itself (case-insensitively), leaving the remainder. -/
theorem matchCI_self : ∀ (p s : List Char), matchCI p (p ++ s) = some s := by
  intro p
  induction p with
  | nil => intro s; rfl
  | cons c cs ih =>
    intro s
    show matchCI (c :: cs) (c :: (cs ++ s)) = some s
    have hc : charMatchCI c c = true := by
      simp [charMatchCI]
    simp only [matchCI, hc, if_true]
    exact ih s

/-- A match fails immediately when the first characters do not match. -/
theorem matchCI_head_ne (pc : Char) (ps : List Char) (c : Char) (cs : List Char)
    (h : charMatchCI pc c = false) : matchCI (pc :: ps) (c :: cs) = none := by
  simp [matchCI, h]

/-- No character other than `<` matches the pattern character `<`. -/
theorem charMatchCI_lt (c : Char) (hc : c ≠ '<') : charMatchCI ('<') c = false := by
  have h1 : (c == '<') = false := beq_eq_false_iff_ne.mpr hc
  have h2 : Char.isLower ('<') = false := by decide
  simp [charMatchCI, h1, h2]

/-- `dropThroughGt` consumes a `>`-free segment, the first `>`, and returns
the remainder. -/
theorem dropThroughGt_spec : ∀ (seg rest : List Char), (∀ c ∈ seg, c ≠ '>') →
    dropThroughGt (seg ++ ('>') :: rest) = some rest := by
  intro seg
  induction seg with
  | nil =>
    intro rest _
    simp [dropThroughGt]
  | cons c cs ih =>
    intro rest h
    have hc : (c == '>') = false :=
      beq_eq_false_iff_ne.mpr (h c (List.mem_cons_self c cs))
    simp only [List.cons_append, dropThroughGt, hc, Bool.false_eq_true, if_false]
    exact ih rest (fun x hx => h x (List.mem_cons_of_mem c hx))

/-- `dropThroughGt` strictly shrinks its input. -/
theorem dropThroughGt_length : ∀ (l a : List Char), dropThroughGt l = some a →
    a.length < l.length := by
  intro l
  induction l with
  | nil => intro a h; simp [dropThroughGt] at h
  | cons c cs ih =>
    intro a h
    by_cases hc : (c == '>') = true
    · simp only [dropThroughGt, hc, if_true, Option.some.injEq] at h
      subst h
      simp
    · simp only [dropThroughGt, hc, Bool.false_eq_true, if_false] at h
      have := ih a h
      simp
      omega

/-- `takeToGt` splits a `>`-free segment from the remainder after the first
`>`. -/
theorem takeToGt_spec : ∀ (seg rest : List Char), (∀ c ∈ seg, c ≠ '>') →
    takeToGt (seg ++ ('>') :: rest) = some (seg, rest) := by
  intro seg
  induction seg with
  | nil =>
    intro rest _
    simp [takeToGt]
  | cons c cs ih =>
    intro rest h
    have hc : (c == '>') = false :=
      beq_eq_false_iff_ne.mpr (h c (List.mem_cons_self c cs))
    simp only [List.cons_append, takeToGt, hc, Bool.false_eq_true, if_false,
      List.append_eq]
    rw [ih rest (fun x hx => h x (List.mem_cons_of_mem c hx))]

/-- The remainder returned by `takeToGt` is strictly shorter than the
input. -/
theorem takeToGt_length : ∀ (l seg rest : List Char),
    takeToGt l = some (seg, rest) → rest.length < l.length := by
  intro l
  induction l with
  | nil => intro seg rest h; simp [takeToGt] at h
  | cons c cs ih =>
    intro seg rest h
    by_cases hc : (c == '>') = true
    · simp only [takeToGt, hc, if_true, Option.some.injEq, Prod.mk.injEq] at h
      rw [← h.2]
      simp
    · simp only [takeToGt, hc, Bool.false_eq_true, if_false] at h
      cases htk : takeToGt cs with
      | none => rw [htk] at h; simp at h
      | some p =>
        rw [htk] at h
        rcases p with ⟨s2, r2⟩
        simp only [Option.some.injEq, Prod.mk.injEq] at h
        have := ih s2 r2 htk
        rw [← h.2]
        simp
        omega


/-- Open-tag pass, one step: a full match (pattern, whitespace, then a `>`)
drops the span and continues after it. -/
theorem stripOpenFuel_step_match (m : Nat) (c : Char) (cs : List Char)
    (r : Char) (rs after : List Char)
    (hm : matchCI footnotePat (c :: cs) = some (r :: rs))
    (hsp : isJsSpace r = true) (hd : dropThroughGt rs = some after) :
    stripOpenFuel (m + 1) (c :: cs) = stripOpenFuel m after := by
  simp [stripOpenFuel, hm, hsp, hd]

/-- Open-tag pass, one step: no `<footnote` here, keep the character. -/
theorem stripOpenFuel_step_nomatch (m : Nat) (c : Char) (cs : List Char)
    (hm : matchCI footnotePat (c :: cs) = none) :
    stripOpenFuel (m + 1) (c :: cs) = c :: stripOpenFuel m cs := by
  simp [stripOpenFuel, hm]

/-- Open-tag pass, one step: `<footnote` at the end of input, keep the
character. -/
theorem stripOpenFuel_step_end (m : Nat) (c : Char) (cs : List Char)
    (hm : matchCI footnotePat (c :: cs) = some []) :
    stripOpenFuel (m + 1) (c :: cs) = c :: stripOpenFuel m cs := by
  simp [stripOpenFuel, hm]

/-- Open-tag pass, one step: `<footnote` not followed by whitespace, keep the
character. -/
theorem stripOpenFuel_step_nospace (m : Nat) (c : Char) (cs : List Char)
    (r : Char) (rs : List Char)
    (hm : matchCI footnotePat (c :: cs) = some (r :: rs))
    (hsp : isJsSpace r = false) :
    stripOpenFuel (m + 1) (c :: cs) = c :: stripOpenFuel m cs := by
  simp [stripOpenFuel, hm, hsp]

/-- Open-tag pass, one step: `<footnote` plus whitespace but no later `>`,
keep the character. -/
theorem stripOpenFuel_step_nogt (m : Nat) (c : Char) (cs : List Char)
    (r : Char) (rs : List Char)
    (hm : matchCI footnotePat (c :: cs) = some (r :: rs))
    (hsp : isJsSpace r = true) (hd : dropThroughGt rs = none) :
    stripOpenFuel (m + 1) (c :: cs) = c :: stripOpenFuel m cs := by
  simp [stripOpenFuel, hm, hsp, hd]

/-- Closing-tag pass, one step: a literal `</footnote>` match is dropped. -/
theorem stripCloseFuel_step_match (m : Nat) (c : Char) (cs rest : List Char)
    (hm : matchCI closePat (c :: cs) = some rest) :
    stripCloseFuel (m + 1) (c :: cs) = stripCloseFuel m rest := by
  simp [stripCloseFuel, hm]

/-- Closing-tag pass, one step: no match, keep the character. -/
theorem stripCloseFuel_step_nomatch (m : Nat) (c : Char) (cs : List Char)
    (hm : matchCI closePat (c :: cs) = none) :
    stripCloseFuel (m + 1) (c :: cs) = c :: stripCloseFuel m cs := by
  simp [stripCloseFuel, hm]

/-- Self-closing pass, one step: `<footnote`, a `>`-free segment ending in
`/`, then `>`: the span is dropped. -/
theorem stripSelfCloseFuel_step_match (m : Nat) (c : Char)
    (cs rest seg after : List Char)
    (hm : matchCI footnotePat (c :: cs) = some rest)
    (htk : takeToGt rest = some (seg, after))
    (hlast : seg.getLast? = some ('/')) :
    stripSelfCloseFuel (m + 1) (c :: cs) = stripSelfCloseFuel m after := by
  simp [stripSelfCloseFuel, hm, htk, hlast]

/-- Self-closing pass, one step: no `<footnote` here, keep the character. -/
theorem stripSelfCloseFuel_step_nomatch (m : Nat) (c : Char) (cs : List Char)
    (hm : matchCI footnotePat (c :: cs) = none) :
    stripSelfCloseFuel (m + 1) (c :: cs) = c :: stripSelfCloseFuel m cs := by
  simp [stripSelfCloseFuel, hm]

/-- Self-closing pass, one step: no `>` after `<footnote`, keep the
character. -/
theorem stripSelfCloseFuel_step_nogt (m : Nat) (c : Char) (cs rest : List Char)
    (hm : matchCI footnotePat (c :: cs) = some rest)
    (htk : takeToGt rest = none) :
    stripSelfCloseFuel (m + 1) (c :: cs) = c :: stripSelfCloseFuel m cs := by
  simp [stripSelfCloseFuel, hm, htk]

/-- Self-closing pass, one step: the segment before the first `>` does not
end in `/`, keep the character. -/
theorem stripSelfCloseFuel_step_noslash (m : Nat) (c : Char)
    (cs rest seg after : List Char)
    (hm : matchCI footnotePat (c :: cs) = some rest)
    (htk : takeToGt rest = some (seg, after))
    (hlast : seg.getLast? ≠ some ('/')) :
    stripSelfCloseFuel (m + 1) (c :: cs) = c :: stripSelfCloseFuel m cs := by
  have hb : (seg.getLast? == some ('/')) = false := beq_eq_false_iff_ne.mpr hlast
  simp [stripSelfCloseFuel, hm, htk, hb]

/-- The open-tag pass does not depend on the fuel once it is at least the
input length. -/
theorem stripOpenFuel_congr : ∀ (n : Nat) (s : List Char) (f₁ f₂ : Nat),
    s.length ≤ n → s.length ≤ f₁ → s.length ≤ f₂ →
    stripOpenFuel f₁ s = stripOpenFuel f₂ s := by
  intro n
  induction n with
  | zero =>
    intro s f₁ f₂ hn _ _
    have hs : s = [] := List.length_eq_zero.mp (Nat.le_zero.mp hn)
    subst hs
    cases f₁ <;> cases f₂ <;> rfl
  | succ n ih =>
    intro s f₁ f₂ hn h₁ h₂
    cases s with
    | nil => cases f₁ <;> cases f₂ <;> rfl
    | cons c cs =>
      cases f₁ with
      | zero => exact absurd h₁ (by simp)
      | succ m₁ =>
        cases f₂ with
        | zero => exact absurd h₂ (by simp)
        | succ m₂ =>
          have h₁' : cs.length ≤ m₁ := by simpa using h₁
          have h₂' : cs.length ≤ m₂ := by simpa using h₂
          have hn' : cs.length ≤ n := by
            simp only [List.length_cons] at hn
            omega
          cases hm : matchCI footnotePat (c :: cs) with
          | none =>
            rw [stripOpenFuel_step_nomatch m₁ c cs hm,
                stripOpenFuel_step_nomatch m₂ c cs hm,
                ih cs m₁ m₂ hn' h₁' h₂']
          | some rest =>
            cases rest with
            | nil =>
              rw [stripOpenFuel_step_end m₁ c cs hm,
                  stripOpenFuel_step_end m₂ c cs hm,
                  ih cs m₁ m₂ hn' h₁' h₂']
            | cons r rs =>
              by_cases hsp : isJsSpace r = true
              · cases hd : dropThroughGt rs with
                | some after =>
                  have hml := matchCI_length footnotePat (c :: cs) (r :: rs) hm
                  have hdl := dropThroughGt_length rs after hd
                  have hfp : footnotePat.length = 9 := by decide
                  simp only [List.length_cons, hfp] at hml hdl
                  have ha : after.length ≤ cs.length := by omega
                  rw [stripOpenFuel_step_match m₁ c cs r rs after hm hsp hd,
                      stripOpenFuel_step_match m₂ c cs r rs after hm hsp hd]
                  exact ih after m₁ m₂ (le_trans ha hn') (le_trans ha h₁')
                    (le_trans ha h₂')
                | none =>
                  rw [stripOpenFuel_step_nogt m₁ c cs r rs hm hsp hd,
                      stripOpenFuel_step_nogt m₂ c cs r rs hm hsp hd,
                      ih cs m₁ m₂ hn' h₁' h₂']
              · have hspf : isJsSpace r = false := by
                  cases hr : isJsSpace r
                  · rfl
                  · exact absurd hr hsp
                rw [stripOpenFuel_step_nospace m₁ c cs r rs hm hspf,
                    stripOpenFuel_step_nospace m₂ c cs r rs hm hspf,
                    ih cs m₁ m₂ hn' h₁' h₂']

/-- Sufficient fuel computes `stripOpenAux`. -/
theorem stripOpenFuel_eq_aux (s : List Char) (fuel : Nat) (h : s.length ≤ fuel) :
    stripOpenFuel fuel s = stripOpenAux s :=
  stripOpenFuel_congr fuel s fuel s.length h h (le_refl s.length)

/-- The closing-tag pass does not depend on the fuel once it is at least the
input length. -/
theorem stripCloseFuel_congr : ∀ (n : Nat) (s : List Char) (f₁ f₂ : Nat),
    s.length ≤ n → s.length ≤ f₁ → s.length ≤ f₂ →
    stripCloseFuel f₁ s = stripCloseFuel f₂ s := by
  intro n
  induction n with
  | zero =>
    intro s f₁ f₂ hn _ _
    have hs : s = [] := List.length_eq_zero.mp (Nat.le_zero.mp hn)
    subst hs
    cases f₁ <;> cases f₂ <;> rfl
  | succ n ih =>
    intro s f₁ f₂ hn h₁ h₂
    cases s with
    | nil => cases f₁ <;> cases f₂ <;> rfl
    | cons c cs =>
      cases f₁ with
      | zero => exact absurd h₁ (by simp)
      | succ m₁ =>
        cases f₂ with
        | zero => exact absurd h₂ (by simp)
        | succ m₂ =>
          have h₁' : cs.length ≤ m₁ := by simpa using h₁
          have h₂' : cs.length ≤ m₂ := by simpa using h₂
          have hn' : cs.length ≤ n := by
            simp only [List.length_cons] at hn
            omega
          cases hm : matchCI closePat (c :: cs) with
          | none =>
            rw [stripCloseFuel_step_nomatch m₁ c cs hm,
                stripCloseFuel_step_nomatch m₂ c cs hm,
                ih cs m₁ m₂ hn' h₁' h₂']
          | some rest =>
            have hml := matchCI_length closePat (c :: cs) rest hm
            have hcp : closePat.length = 11 := by decide
            simp only [List.length_cons, hcp] at hml
            have ha : rest.length ≤ cs.length := by omega
            rw [stripCloseFuel_step_match m₁ c cs rest hm,
                stripCloseFuel_step_match m₂ c cs rest hm]
            exact ih rest m₁ m₂ (le_trans ha hn') (le_trans ha h₁')
              (le_trans ha h₂')

/-- Sufficient fuel computes `stripCloseAux`. -/
theorem stripCloseFuel_eq_aux (s : List Char) (fuel : Nat) (h : s.length ≤ fuel) :
    stripCloseFuel fuel s = stripCloseAux s :=
  stripCloseFuel_congr fuel s fuel s.length h h (le_refl s.length)

/-- The self-closing pass does not depend on the fuel once it is at least
the input length. -/
theorem stripSelfCloseFuel_congr : ∀ (n : Nat) (s : List Char) (f₁ f₂ : Nat),
    s.length ≤ n → s.length ≤ f₁ → s.length ≤ f₂ →
    stripSelfCloseFuel f₁ s = stripSelfCloseFuel f₂ s := by
  intro n
  induction n with
  | zero =>
    intro s f₁ f₂ hn _ _
    have hs : s = [] := List.length_eq_zero.mp (Nat.le_zero.mp hn)
    subst hs
    cases f₁ <;> cases f₂ <;> rfl
  | succ n ih =>
    intro s f₁ f₂ hn h₁ h₂
    cases s with
    | nil => cases f₁ <;> cases f₂ <;> rfl
    | cons c cs =>
      cases f₁ with
      | zero => exact absurd h₁ (by simp)
      | succ m₁ =>
        cases f₂ with
        | zero => exact absurd h₂ (by simp)
        | succ m₂ =>
          have h₁' : cs.length ≤ m₁ := by simpa using h₁
          have h₂' : cs.length ≤ m₂ := by simpa using h₂
          have hn' : cs.length ≤ n := by
            simp only [List.length_cons] at hn
            omega
          cases hm : matchCI footnotePat (c :: cs) with
          | none =>
            rw [stripSelfCloseFuel_step_nomatch m₁ c cs hm,
                stripSelfCloseFuel_step_nomatch m₂ c cs hm,
                ih cs m₁ m₂ hn' h₁' h₂']
          | some rest =>
            cases htk : takeToGt rest with
            | none =>
              rw [stripSelfCloseFuel_step_nogt m₁ c cs rest hm htk,
                  stripSelfCloseFuel_step_nogt m₂ c cs rest hm htk,
                  ih cs m₁ m₂ hn' h₁' h₂']
            | some p =>
              rcases p with ⟨seg, after⟩
              by_cases hlast : seg.getLast? = some ('/')
              · have hml := matchCI_length footnotePat (c :: cs) rest hm
                have htl := takeToGt_length rest seg after htk
                have hfp : footnotePat.length = 9 := by decide
                simp only [List.length_cons, hfp] at hml
                have ha : after.length ≤ cs.length := by omega
                rw [stripSelfCloseFuel_step_match m₁ c cs rest seg after hm htk hlast,
                    stripSelfCloseFuel_step_match m₂ c cs rest seg after hm htk hlast]
                exact ih after m₁ m₂ (le_trans ha hn') (le_trans ha h₁')
                  (le_trans ha h₂')
              · rw [stripSelfCloseFuel_step_noslash m₁ c cs rest seg after hm htk hlast,
                    stripSelfCloseFuel_step_noslash m₂ c cs rest seg after hm htk hlast,
                    ih cs m₁ m₂ hn' h₁' h₂']

/-- Sufficient fuel computes `stripSelfCloseAux`. -/
theorem stripSelfCloseFuel_eq_aux (s : List Char) (fuel : Nat)
    (h : s.length ≤ fuel) : stripSelfCloseFuel fuel s = stripSelfCloseAux s :=
  stripSelfCloseFuel_congr fuel s fuel s.length h h (le_refl s.length)

/-- Aux form of the open-tag match step. -/
theorem stripOpenAux_step_match (c : Char) (cs : List Char) (r : Char)
    (rs after : List Char)
    (hm : matchCI footnotePat (c :: cs) = some (r :: rs))
    (hsp : isJsSpace r = true) (hd : dropThroughGt rs = some after) :
    stripOpenAux (c :: cs) = stripOpenAux after := by
  show stripOpenFuel (c :: cs).length (c :: cs) = _
  rw [List.length_cons, stripOpenFuel_step_match cs.length c cs r rs after hm hsp hd]
  apply stripOpenFuel_eq_aux
  have hml := matchCI_length footnotePat (c :: cs) (r :: rs) hm
  have hdl := dropThroughGt_length rs after hd
  have hfp : footnotePat.length = 9 := by decide
  simp only [List.length_cons, hfp] at hml hdl
  omega

/-- Aux form of the open-tag keep step (no match). -/
theorem stripOpenAux_cons_nomatch (c : Char) (cs : List Char)
    (hm : matchCI footnotePat (c :: cs) = none) :
    stripOpenAux (c :: cs) = c :: stripOpenAux cs := by
  show stripOpenFuel (c :: cs).length (c :: cs) = _
  rw [List.length_cons, stripOpenFuel_step_nomatch cs.length c cs hm]
  rfl

/-- Aux form of the open-tag keep step (no whitespace after the pattern). -/
theorem stripOpenAux_cons_nospace (c : Char) (cs : List Char) (r : Char)
    (rs : List Char)
    (hm : matchCI footnotePat (c :: cs) = some (r :: rs))
    (hsp : isJsSpace r = false) :
    stripOpenAux (c :: cs) = c :: stripOpenAux cs := by
  show stripOpenFuel (c :: cs).length (c :: cs) = _
  rw [List.length_cons, stripOpenFuel_step_nospace cs.length c cs r rs hm hsp]
  rfl

/-- Aux form of the closing-tag match step. -/
theorem stripCloseAux_step_match (c : Char) (cs rest : List Char)
    (hm : matchCI closePat (c :: cs) = some rest) :
    stripCloseAux (c :: cs) = stripCloseAux rest := by
  show stripCloseFuel (c :: cs).length (c :: cs) = _
  rw [List.length_cons, stripCloseFuel_step_match cs.length c cs rest hm]
  apply stripCloseFuel_eq_aux
  have hml := matchCI_length closePat (c :: cs) rest hm
  have hcp : closePat.length = 11 := by decide
  simp only [List.length_cons, hcp] at hml
  omega

/-- Aux form of the closing-tag keep step. -/
theorem stripCloseAux_cons_nomatch (c : Char) (cs : List Char)
    (hm : matchCI closePat (c :: cs) = none) :
    stripCloseAux (c :: cs) = c :: stripCloseAux cs := by
  show stripCloseFuel (c :: cs).length (c :: cs) = _
  rw [List.length_cons, stripCloseFuel_step_nomatch cs.length c cs hm]
  rfl

/-- Aux form of the self-closing match step. -/
theorem stripSelfCloseAux_step_match (c : Char) (cs rest seg after : List Char)
    (hm : matchCI footnotePat (c :: cs) = some rest)
    (htk : takeToGt rest = some (seg, after))
    (hlast : seg.getLast? = some ('/')) :
    stripSelfCloseAux (c :: cs) = stripSelfCloseAux after := by
  show stripSelfCloseFuel (c :: cs).length (c :: cs) = _
  rw [List.length_cons,
      stripSelfCloseFuel_step_match cs.length c cs rest seg after hm htk hlast]
  apply stripSelfCloseFuel_eq_aux
  have hml := matchCI_length footnotePat (c :: cs) rest hm
  have htl := takeToGt_length rest seg after htk
  have hfp : footnotePat.length = 9 := by decide
  simp only [List.length_cons, hfp] at hml
  omega

/-- Aux form of the self-closing keep step (no match). -/
theorem stripSelfCloseAux_cons_nomatch (c : Char) (cs : List Char)
    (hm : matchCI footnotePat (c :: cs) = none) :
    stripSelfCloseAux (c :: cs) = c :: stripSelfCloseAux cs := by
  show stripSelfCloseFuel (c :: cs).length (c :: cs) = _
  rw [List.length_cons, stripSelfCloseFuel_step_nomatch cs.length c cs hm]
  rfl

/-- The open-tag pass copies a `<`-free prefix unchanged. -/
theorem stripOpenAux_text : ∀ (t rest : List Char), (∀ c ∈ t, c ≠ '<') →
    stripOpenAux (t ++ rest) = t ++ stripOpenAux rest := by
  intro t
  induction t with
  | nil => intro rest _; simp
  | cons c ts ih =>
    intro rest h
    have hc : c ≠ '<' := h c (List.mem_cons_self c ts)
    have hmc : matchCI footnotePat (c :: (ts ++ rest)) = none :=
      matchCI_head_ne ('<') ([ 'f', 'o', 'o', 't', 'n', 'o', 't', 'e' ]) c
        (ts ++ rest) (charMatchCI_lt c hc)
    show stripOpenAux (c :: (ts ++ rest)) = c :: (ts ++ stripOpenAux rest)
    rw [stripOpenAux_cons_nomatch c (ts ++ rest) hmc,
        ih rest (fun x hx => h x (List.mem_cons_of_mem c hx))]

/-- The closing-tag pass copies a `<`-free prefix unchanged. -/
theorem stripCloseAux_text : ∀ (t rest : List Char), (∀ c ∈ t, c ≠ '<') →
    stripCloseAux (t ++ rest) = t ++ stripCloseAux rest := by
  intro t
  induction t with
  | nil => intro rest _; simp
  | cons c ts ih =>
    intro rest h
    have hc : c ≠ '<' := h c (List.mem_cons_self c ts)
    have hmc : matchCI closePat (c :: (ts ++ rest)) = none :=
      matchCI_head_ne ('<')
        ([ '/', 'f', 'o', 'o', 't', 'n', 'o', 't', 'e', '>' ]) c
        (ts ++ rest) (charMatchCI_lt c hc)
    show stripCloseAux (c :: (ts ++ rest)) = c :: (ts ++ stripCloseAux rest)
    rw [stripCloseAux_cons_nomatch c (ts ++ rest) hmc,
        ih rest (fun x hx => h x (List.mem_cons_of_mem c hx))]

/-- The self-closing pass copies a `<`-free prefix unchanged. -/
theorem stripSelfCloseAux_text : ∀ (t rest : List Char), (∀ c ∈ t, c ≠ '<') →
    stripSelfCloseAux (t ++ rest) = t ++ stripSelfCloseAux rest := by
  intro t
  induction t with
  | nil => intro rest _; simp
  | cons c ts ih =>
    intro rest h
    have hc : c ≠ '<' := h c (List.mem_cons_self c ts)
    have hmc : matchCI footnotePat (c :: (ts ++ rest)) = none :=
      matchCI_head_ne ('<') ([ 'f', 'o', 'o', 't', 'n', 'o', 't', 'e' ]) c
        (ts ++ rest) (charMatchCI_lt c hc)
    show stripSelfCloseAux (c :: (ts ++ rest)) = c :: (ts ++ stripSelfCloseAux rest)
    rw [stripSelfCloseAux_cons_nomatch c (ts ++ rest) hmc,
        ih rest (fun x hx => h x (List.mem_cons_of_mem c hx))]

/-- The open-tag pass is the identity on `<`-free input. -/
theorem stripOpenAux_id (t : List Char) (h : ∀ c ∈ t, c ≠ '<') :
    stripOpenAux t = t := by
  have h1 := stripOpenAux_text t [] h
  rw [List.append_nil] at h1
  rw [h1, show stripOpenAux ([] : List Char) = [] from rfl, List.append_nil]

/-- The closing-tag pass is the identity on `<`-free input. -/
theorem stripCloseAux_id (t : List Char) (h : ∀ c ∈ t, c ≠ '<') :
    stripCloseAux t = t := by
  have h1 := stripCloseAux_text t [] h
  rw [List.append_nil] at h1
  rw [h1, show stripCloseAux ([] : List Char) = [] from rfl, List.append_nil]

/-- The self-closing pass is the identity on `<`-free input. -/
theorem stripSelfCloseAux_id (t : List Char) (h : ∀ c ∈ t, c ≠ '<') :
    stripSelfCloseAux t = t := by
  have h1 := stripSelfCloseAux_text t [] h
  rw [List.append_nil] at h1
  rw [h1, show stripSelfCloseAux ([] : List Char) = [] from rfl, List.append_nil]

/-- Membership helper: appending `<`-free lists stays `<`-free. -/
theorem no_lt_append (xs ys : List Char) (hx : ∀ c ∈ xs, c ≠ '<')
    (hy : ∀ c ∈ ys, c ≠ '<') : ∀ c ∈ xs ++ ys, c ≠ '<' := by
  intro c hc
  rcases List.mem_append.mp hc with h | h
  · exact hx c h
  · exact hy c h

/-- The open-tag pass removes a rendered open tag and continues after it. -/
theorem stripOpenAux_openTag (a : Char) (as rest : List Char)
    (hsp : isJsSpace a = true) (hgt : ∀ c ∈ as, c ≠ '>') :
    stripOpenAux (footnotePat ++ ((a :: as) ++ ('>') :: rest))
      = stripOpenAux rest := by
  have hm : matchCI footnotePat
      (('<') :: (([ 'f', 'o', 'o', 't', 'n', 'o', 't', 'e' ] : List Char)
        ++ ((a :: as) ++ ('>') :: rest)))
      = some (a :: (as ++ ('>') :: rest)) := by
    have h0 := matchCI_self footnotePat ((a :: as) ++ ('>') :: rest)
    simpa [footnotePat] using h0
  have hd : dropThroughGt (as ++ ('>') :: rest) = some rest :=
    dropThroughGt_spec as rest hgt
  exact stripOpenAux_step_match ('<')
    (([ 'f', 'o', 'o', 't', 'n', 'o', 't', 'e' ] : List Char)
      ++ ((a :: as) ++ ('>') :: rest))
    a (as ++ ('>') :: rest) rest hm hsp hd

/-- The open-tag pass leaves a rendered closing tag in place. -/
theorem stripOpenAux_closeTag (rest : List Char) :
    stripOpenAux (closePat ++ rest) = closePat ++ stripOpenAux rest := by
  have h1 : charMatchCI ('<') ('<') = true := by decide
  have h2 : charMatchCI ('f') ('/') = false := by decide
  have hmc : matchCI footnotePat
      (('<') :: (([ '/', 'f', 'o', 'o', 't', 'n', 'o', 't', 'e', '>' ] : List Char)
        ++ rest)) = none := by
    simp [footnotePat, matchCI, h1, h2]
  have hkeep := stripOpenAux_cons_nomatch ('<')
    (([ '/', 'f', 'o', 'o', 't', 'n', 'o', 't', 'e', '>' ] : List Char) ++ rest) hmc
  have hskip := stripOpenAux_text
    ([ '/', 'f', 'o', 'o', 't', 'n', 'o', 't', 'e', '>' ]) rest (by decide)
  calc stripOpenAux (closePat ++ rest)
      = ('<') :: stripOpenAux
          (([ '/', 'f', 'o', 'o', 't', 'n', 'o', 't', 'e', '>' ] : List Char)
            ++ rest) := hkeep
    _ = ('<') :: (([ '/', 'f', 'o', 'o', 't', 'n', 'o', 't', 'e', '>' ] : List Char)
          ++ stripOpenAux rest) := by rw [hskip]
    _ = closePat ++ stripOpenAux rest := by simp [closePat]

/-- The open-tag pass leaves a rendered self-closing tag in place (its
attribute text does not start with whitespace). -/
theorem stripOpenAux_selfTag (attrs rest : List Char)
    (hns : ∀ a as, attrs = a :: as → isJsSpace a = false)
    (hlt : ∀ c ∈ attrs, c ≠ '<') :
    stripOpenAux (footnotePat ++ (attrs ++ ('/') :: ('>') :: rest))
      = (footnotePat ++ (attrs ++ [ '/', '>' ])) ++ stripOpenAux rest := by
  have hall : ∀ c ∈ ([ 'f', 'o', 'o', 't', 'n', 'o', 't', 'e' ] : List Char)
      ++ (attrs ++ ([ '/', '>' ] : List Char)), c ≠ '<' :=
    no_lt_append _ _ (by decide) (no_lt_append _ _ hlt (by decide))
  have hshape : ([ 'f', 'o', 'o', 't', 'n', 'o', 't', 'e' ] : List Char)
      ++ (attrs ++ ('/') :: ('>') :: rest)
      = (([ 'f', 'o', 'o', 't', 'n', 'o', 't', 'e' ] : List Char)
          ++ (attrs ++ ([ '/', '>' ] : List Char))) ++ rest := by
    simp
  have hskip : stripOpenAux (([ 'f', 'o', 'o', 't', 'n', 'o', 't', 'e' ] : List Char)
      ++ (attrs ++ ('/') :: ('>') :: rest))
      = (([ 'f', 'o', 'o', 't', 'n', 'o', 't', 'e' ] : List Char)
          ++ (attrs ++ ([ '/', '>' ] : List Char))) ++ stripOpenAux rest := by
    rw [hshape]
    exact stripOpenAux_text _ rest hall
  rcases attrs with _ | ⟨a, as⟩
  · have hm : matchCI footnotePat
        (('<') :: (([ 'f', 'o', 'o', 't', 'n', 'o', 't', 'e' ] : List Char)
          ++ (([] : List Char) ++ ('/') :: ('>') :: rest)))
        = some (('/') :: ('>') :: rest) := by
      have h0 := matchCI_self footnotePat (([] : List Char) ++ ('/') :: ('>') :: rest)
      simpa [footnotePat] using h0
    have hsp : isJsSpace ('/') = false := by decide
    have hkeep := stripOpenAux_cons_nospace ('<')
      (([ 'f', 'o', 'o', 't', 'n', 'o', 't', 'e' ] : List Char)
        ++ (([] : List Char) ++ ('/') :: ('>') :: rest))
      ('/') (('>') :: rest) hm hsp
    calc stripOpenAux (footnotePat ++ (([] : List Char) ++ ('/') :: ('>') :: rest))
        = ('<') :: stripOpenAux
            (([ 'f', 'o', 'o', 't', 'n', 'o', 't', 'e' ] : List Char)
              ++ (([] : List Char) ++ ('/') :: ('>') :: rest)) := hkeep
      _ = ('<') :: ((([ 'f', 'o', 'o', 't', 'n', 'o', 't', 'e' ] : List Char)
            ++ (([] : List Char) ++ ([ '/', '>' ] : List Char))) ++ stripOpenAux rest) := by
          rw [hskip]
      _ = (footnotePat ++ (([] : List Char) ++ [ '/', '>' ])) ++ stripOpenAux rest := by
          simp [footnotePat]
  · have hns' : isJsSpace a = false := hns a as rfl
    have hm : matchCI footnotePat
        (('<') :: (([ 'f', 'o', 'o', 't', 'n', 'o', 't', 'e' ] : List Char)
          ++ ((a :: as) ++ ('/') :: ('>') :: rest)))
        = some (a :: (as ++ ('/') :: ('>') :: rest)) := by
      have h0 := matchCI_self footnotePat ((a :: as) ++ ('/') :: ('>') :: rest)
      simpa [footnotePat] using h0
    have hkeep := stripOpenAux_cons_nospace ('<')
      (([ 'f', 'o', 'o', 't', 'n', 'o', 't', 'e' ] : List Char)
        ++ ((a :: as) ++ ('/') :: ('>') :: rest))
      a (as ++ ('/') :: ('>') :: rest) hm hns'
    calc stripOpenAux (footnotePat ++ ((a :: as) ++ ('/') :: ('>') :: rest))
        = ('<') :: stripOpenAux
            (([ 'f', 'o', 'o', 't', 'n', 'o', 't', 'e' ] : List Char)
              ++ ((a :: as) ++ ('/') :: ('>') :: rest)) := hkeep
      _ = ('<') :: ((([ 'f', 'o', 'o', 't', 'n', 'o', 't', 'e' ] : List Char)
            ++ ((a :: as) ++ ([ '/', '>' ] : List Char))) ++ stripOpenAux rest) := by
          rw [hskip]
      _ = (footnotePat ++ ((a :: as) ++ [ '/', '>' ])) ++ stripOpenAux rest := by
          simp [footnotePat]

/-- The closing-tag pass removes a rendered `</footnote>` and continues. -/
theorem stripCloseAux_closeTag (rest : List Char) :
    stripCloseAux (closePat ++ rest) = stripCloseAux rest := by
  have hm : matchCI closePat
      (('<') :: (([ '/', 'f', 'o', 'o', 't', 'n', 'o', 't', 'e', '>' ] : List Char)
        ++ rest)) = some rest := by
    have h0 := matchCI_self closePat rest
    simpa [closePat] using h0
  exact stripCloseAux_step_match ('<')
    (([ '/', 'f', 'o', 'o', 't', 'n', 'o', 't', 'e', '>' ] : List Char) ++ rest)
    rest hm

/-- The closing-tag pass leaves a rendered open tag in place. -/
theorem stripCloseAux_openTag (attrs rest : List Char)
    (hlt : ∀ c ∈ attrs, c ≠ '<') :
    stripCloseAux (footnotePat ++ (attrs ++ ('>') :: rest))
      = (footnotePat ++ (attrs ++ [ '>' ])) ++ stripCloseAux rest := by
  have h1 : charMatchCI ('<') ('<') = true := by decide
  have h2 : charMatchCI ('/') ('f') = false := by decide
  have hmc : matchCI closePat
      (('<') :: (([ 'f', 'o', 'o', 't', 'n', 'o', 't', 'e' ] : List Char)
        ++ (attrs ++ ('>') :: rest))) = none := by
    simp [closePat, matchCI, h1, h2]
  have hall : ∀ c ∈ ([ 'f', 'o', 'o', 't', 'n', 'o', 't', 'e' ] : List Char)
      ++ (attrs ++ ([ '>' ] : List Char)), c ≠ '<' :=
    no_lt_append _ _ (by decide) (no_lt_append _ _ hlt (by decide))
  have hshape : ([ 'f', 'o', 'o', 't', 'n', 'o', 't', 'e' ] : List Char)
      ++ (attrs ++ ('>') :: rest)
      = (([ 'f', 'o', 'o', 't', 'n', 'o', 't', 'e' ] : List Char)
          ++ (attrs ++ ([ '>' ] : List Char))) ++ rest := by
    simp
  have hkeep := stripCloseAux_cons_nomatch ('<')
    (([ 'f', 'o', 'o', 't', 'n', 'o', 't', 'e' ] : List Char)
      ++ (attrs ++ ('>') :: rest)) hmc
  calc stripCloseAux (footnotePat ++ (attrs ++ ('>') :: rest))
      = ('<') :: stripCloseAux
          (([ 'f', 'o', 'o', 't', 'n', 'o', 't', 'e' ] : List Char)
            ++ (attrs ++ ('>') :: rest)) := hkeep
    _ = ('<') :: ((([ 'f', 'o', 'o', 't', 'n', 'o', 't', 'e' ] : List Char)
          ++ (attrs ++ ([ '>' ] : List Char))) ++ stripCloseAux rest) := by
        rw [hshape, stripCloseAux_text _ rest hall]
    _ = (footnotePat ++ (attrs ++ [ '>' ])) ++ stripCloseAux rest := by
        simp [footnotePat]

/-- The closing-tag pass leaves a rendered self-closing tag in place. -/
theorem stripCloseAux_selfTag (attrs rest : List Char)
    (hlt : ∀ c ∈ attrs, c ≠ '<') :
    stripCloseAux (footnotePat ++ (attrs ++ ('/') :: ('>') :: rest))
      = (footnotePat ++ (attrs ++ [ '/', '>' ])) ++ stripCloseAux rest := by
  have h1 : charMatchCI ('<') ('<') = true := by decide
  have h2 : charMatchCI ('/') ('f') = false := by decide
  have hmc : matchCI closePat
      (('<') :: (([ 'f', 'o', 'o', 't', 'n', 'o', 't', 'e' ] : List Char)
        ++ (attrs ++ ('/') :: ('>') :: rest))) = none := by
    simp [closePat, matchCI, h1, h2]
  have hall : ∀ c ∈ ([ 'f', 'o', 'o', 't', 'n', 'o', 't', 'e' ] : List Char)
      ++ (attrs ++ ([ '/', '>' ] : List Char)), c ≠ '<' :=
    no_lt_append _ _ (by decide) (no_lt_append _ _ hlt (by decide))
  have hshape : ([ 'f', 'o', 'o', 't', 'n', 'o', 't', 'e' ] : List Char)
      ++ (attrs ++ ('/') :: ('>') :: rest)
      = (([ 'f', 'o', 'o', 't', 'n', 'o', 't', 'e' ] : List Char)
          ++ (attrs ++ ([ '/', '>' ] : List Char))) ++ rest := by
    simp
  have hkeep := stripCloseAux_cons_nomatch ('<')
    (([ 'f', 'o', 'o', 't', 'n', 'o', 't', 'e' ] : List Char)
      ++ (attrs ++ ('/') :: ('>') :: rest)) hmc
  calc stripCloseAux (footnotePat ++ (attrs ++ ('/') :: ('>') :: rest))
      = ('<') :: stripCloseAux
          (([ 'f', 'o', 'o', 't', 'n', 'o', 't', 'e' ] : List Char)
            ++ (attrs ++ ('/') :: ('>') :: rest)) := hkeep
    _ = ('<') :: ((([ 'f', 'o', 'o', 't', 'n', 'o', 't', 'e' ] : List Char)
          ++ (attrs ++ ([ '/', '>' ] : List Char))) ++ stripCloseAux rest) := by
        rw [hshape, stripCloseAux_text _ rest hall]
    _ = (footnotePat ++ (attrs ++ [ '/', '>' ])) ++ stripCloseAux rest := by
        simp [footnotePat]

/-- The self-closing pass removes a rendered self-closing tag and
continues. -/
theorem stripSelfCloseAux_selfTag (attrs rest : List Char)
    (hgt : ∀ c ∈ attrs, c ≠ '>') :
    stripSelfCloseAux (footnotePat ++ (attrs ++ ('/') :: ('>') :: rest))
      = stripSelfCloseAux rest := by
  have hm : matchCI footnotePat
      (('<') :: (([ 'f', 'o', 'o', 't', 'n', 'o', 't', 'e' ] : List Char)
        ++ (attrs ++ ('/') :: ('>') :: rest)))
      = some (attrs ++ ('/') :: ('>') :: rest) := by
    have h0 := matchCI_self footnotePat (attrs ++ ('/') :: ('>') :: rest)
    simpa [footnotePat] using h0
  have hallgt : ∀ c ∈ attrs ++ ([ '/' ] : List Char), c ≠ '>' := by
    intro c hc
    rcases List.mem_append.mp hc with h | h
    · exact hgt c h
    · simp at h
      rw [h]
      decide
  have htk : takeToGt (attrs ++ ('/') :: ('>') :: rest)
      = some (attrs ++ [ '/' ], rest) := by
    have h0 := takeToGt_spec (attrs ++ [ '/' ]) rest hallgt
    simpa [List.append_assoc] using h0
  have hlast : (attrs ++ [ '/' ]).getLast? = some ('/') := by
    simp
  exact stripSelfCloseAux_step_match ('<')
    (([ 'f', 'o', 'o', 't', 'n', 'o', 't', 'e' ] : List Char)
      ++ (attrs ++ ('/') :: ('>') :: rest))
    (attrs ++ ('/') :: ('>') :: rest) (attrs ++ [ '/' ]) rest hm htk hlast

/-- Stage 1 on well-formed markup: the first replace removes exactly the
open tags. -/
theorem stripOpenAux_renderChunks : ∀ (chunks : List FootnoteChunk),
    WellFormedMarkup chunks →
    stripOpenAux (renderChunks chunks) = renderChunks (dropOpenTags chunks) := by
  intro chunks
  induction chunks with
  | nil => intro _; rfl
  | cons ch cs ih =>
    intro h
    have hch : chunkOK ch = true := h ch (List.mem_cons_self ch cs)
    have hcs : WellFormedMarkup cs := fun x hx => h x (List.mem_cons_of_mem ch hx)
    cases ch with
    | text t =>
      have hlt : ∀ c ∈ t, c ≠ '<' := by
        simp only [chunkOK, List.all_eq_true, bne_iff_ne, ne_eq] at hch
        exact hch
      show stripOpenAux (t ++ renderChunks cs) = t ++ renderChunks (dropOpenTags cs)
      rw [stripOpenAux_text t _ hlt, ih hcs]
    | openTag attrs =>
      rcases attrs with _ | ⟨a, as⟩
      · simp [chunkOK] at hch
      · simp only [chunkOK, Bool.and_eq_true, List.all_eq_true, bne_iff_ne,
          ne_eq] at hch
        have hgt : ∀ c ∈ as, c ≠ '>' :=
          fun c hc => (hch.2 c (List.mem_cons_of_mem a hc)).1
        have hshape : renderChunks (FootnoteChunk.openTag (a :: as) :: cs)
            = footnotePat ++ ((a :: as) ++ ('>') :: renderChunks cs) := by
          show renderChunk (FootnoteChunk.openTag (a :: as)) ++ renderChunks cs = _
          simp [renderChunk]
        rw [hshape, stripOpenAux_openTag a as _ hch.1 hgt]
        exact ih hcs
    | closeTag =>
      show stripOpenAux (closePat ++ renderChunks cs)
          = closePat ++ renderChunks (dropOpenTags cs)
      rw [stripOpenAux_closeTag, ih hcs]
    | selfTag attrs =>
      simp only [chunkOK, Bool.and_eq_true, List.all_eq_true, bne_iff_ne,
        ne_eq] at hch
      have hlt : ∀ c ∈ attrs, c ≠ '<' := fun c hc => (hch.2 c hc).2
      have hns : ∀ a as, attrs = a :: as → isJsSpace a = false := by
        intro a as heq
        subst heq
        cases hsp : isJsSpace a
        · rfl
        · have h1 : (!isJsSpace a) = true := hch.1
          rw [hsp] at h1
          exact absurd h1 (by decide)
      have hshape : renderChunks (FootnoteChunk.selfTag attrs :: cs)
          = footnotePat ++ (attrs ++ ('/') :: ('>') :: renderChunks cs) := by
        show renderChunk (FootnoteChunk.selfTag attrs) ++ renderChunks cs = _
        simp [renderChunk]
      rw [hshape, stripOpenAux_selfTag attrs _ hns hlt, ih hcs]
      show (footnotePat ++ (attrs ++ [ '/', '>' ])) ++ renderChunks (dropOpenTags cs)
          = renderChunk (FootnoteChunk.selfTag attrs) ++ renderChunks (dropOpenTags cs)
      simp [renderChunk]

/-- Stage 2 on well-formed markup: the second replace removes exactly the
closing tags. -/
theorem stripCloseAux_renderChunks : ∀ (chunks : List FootnoteChunk),
    WellFormedMarkup chunks →
    stripCloseAux (renderChunks chunks) = renderChunks (dropCloseTags chunks) := by
  intro chunks
  induction chunks with
  | nil => intro _; rfl
  | cons ch cs ih =>
    intro h
    have hch : chunkOK ch = true := h ch (List.mem_cons_self ch cs)
    have hcs : WellFormedMarkup cs := fun x hx => h x (List.mem_cons_of_mem ch hx)
    cases ch with
    | text t =>
      have hlt : ∀ c ∈ t, c ≠ '<' := by
        simp only [chunkOK, List.all_eq_true, bne_iff_ne, ne_eq] at hch
        exact hch
      show stripCloseAux (t ++ renderChunks cs) = t ++ renderChunks (dropCloseTags cs)
      rw [stripCloseAux_text t _ hlt, ih hcs]
    | openTag attrs =>
      simp only [chunkOK, Bool.and_eq_true, List.all_eq_true, bne_iff_ne,
        ne_eq] at hch
      have hlt : ∀ c ∈ attrs, c ≠ '<' := fun c hc => (hch.2 c hc).2
      have hshape : renderChunks (FootnoteChunk.openTag attrs :: cs)
          = footnotePat ++ (attrs ++ ('>') :: renderChunks cs) := by
        show renderChunk (FootnoteChunk.openTag attrs) ++ renderChunks cs = _
        simp [renderChunk]
      rw [hshape, stripCloseAux_openTag attrs _ hlt, ih hcs]
      show (footnotePat ++ (attrs ++ [ '>' ])) ++ renderChunks (dropCloseTags cs)
          = renderChunk (FootnoteChunk.openTag attrs) ++ renderChunks (dropCloseTags cs)
      simp [renderChunk]
    | closeTag =>
      show stripCloseAux (closePat ++ renderChunks cs)
          = renderChunks (dropCloseTags cs)
      rw [stripCloseAux_closeTag, ih hcs]
    | selfTag attrs =>
      simp only [chunkOK, Bool.and_eq_true, List.all_eq_true, bne_iff_ne,
        ne_eq] at hch
      have hlt : ∀ c ∈ attrs, c ≠ '<' := fun c hc => (hch.2 c hc).2
      have hshape : renderChunks (FootnoteChunk.selfTag attrs :: cs)
          = footnotePat ++ (attrs ++ ('/') :: ('>') :: renderChunks cs) := by
        show renderChunk (FootnoteChunk.selfTag attrs) ++ renderChunks cs = _
        simp [renderChunk]
      rw [hshape, stripCloseAux_selfTag attrs _ hlt, ih hcs]
      show (footnotePat ++ (attrs ++ [ '/', '>' ])) ++ renderChunks (dropCloseTags cs)
          = renderChunk (FootnoteChunk.selfTag attrs) ++ renderChunks (dropCloseTags cs)
      simp [renderChunk]

/-- Stage 3 on well-formed markup made of text and self-closing tags: the
third replace removes the self-closing tags, leaving the text. -/
theorem stripSelfCloseAux_renderChunks : ∀ (chunks : List FootnoteChunk),
    WellFormedMarkup chunks → (∀ ch ∈ chunks, isTextOrSelf ch = true) →
    stripSelfCloseAux (renderChunks chunks) = textContent chunks := by
  intro chunks
  induction chunks with
  | nil => intro _ _; rfl
  | cons ch cs ih =>
    intro h hts
    have hch : chunkOK ch = true := h ch (List.mem_cons_self ch cs)
    have hcs : WellFormedMarkup cs := fun x hx => h x (List.mem_cons_of_mem ch hx)
    have hts' : ∀ x ∈ cs, isTextOrSelf x = true :=
      fun x hx => hts x (List.mem_cons_of_mem ch hx)
    cases ch with
    | text t =>
      have hlt : ∀ c ∈ t, c ≠ '<' := by
        simp only [chunkOK, List.all_eq_true, bne_iff_ne, ne_eq] at hch
        exact hch
      show stripSelfCloseAux (t ++ renderChunks cs) = t ++ textContent cs
      rw [stripSelfCloseAux_text t _ hlt, ih hcs hts']
    | openTag attrs =>
      exact absurd (hts _ (List.mem_cons_self _ cs)) (by simp [isTextOrSelf])
    | closeTag =>
      exact absurd (hts _ (List.mem_cons_self _ cs)) (by simp [isTextOrSelf])
    | selfTag attrs =>
      simp only [chunkOK, Bool.and_eq_true, List.all_eq_true, bne_iff_ne,
        ne_eq] at hch
      have hgt : ∀ c ∈ attrs, c ≠ '>' := fun c hc => (hch.2 c hc).1
      have hshape : renderChunks (FootnoteChunk.selfTag attrs :: cs)
          = footnotePat ++ (attrs ++ ('/') :: ('>') :: renderChunks cs) := by
        show renderChunk (FootnoteChunk.selfTag attrs) ++ renderChunks cs = _
        simp [renderChunk]
      rw [hshape, stripSelfCloseAux_selfTag attrs _ hgt]
      exact ih hcs hts'

/-- Dropping open tags yields a sublist. -/
theorem dropOpenTags_subset : ∀ (cs : List FootnoteChunk) (x : FootnoteChunk),
    x ∈ dropOpenTags cs → x ∈ cs := by
  intro cs
  induction cs with
  | nil => intro x hx; simpa [dropOpenTags] using hx
  | cons ch rest ih =>
    intro x hx
    cases ch with
    | openTag attrs => exact List.mem_cons_of_mem _ (ih x hx)
    | text t =>
      rcases List.mem_cons.mp hx with h | h
      · rw [h]; exact List.mem_cons_self _ _
      · exact List.mem_cons_of_mem _ (ih x h)
    | closeTag =>
      rcases List.mem_cons.mp hx with h | h
      · rw [h]; exact List.mem_cons_self _ _
      · exact List.mem_cons_of_mem _ (ih x h)
    | selfTag attrs =>
      rcases List.mem_cons.mp hx with h | h
      · rw [h]; exact List.mem_cons_self _ _
      · exact List.mem_cons_of_mem _ (ih x h)

/-- Dropping closing tags yields a sublist. -/
theorem dropCloseTags_subset : ∀ (cs : List FootnoteChunk) (x : FootnoteChunk),
    x ∈ dropCloseTags cs → x ∈ cs := by
  intro cs
  induction cs with
  | nil => intro x hx; simpa [dropCloseTags] using hx
  | cons ch rest ih =>
    intro x hx
    cases ch with
    | closeTag => exact List.mem_cons_of_mem _ (ih x hx)
    | text t =>
      rcases List.mem_cons.mp hx with h | h
      · rw [h]; exact List.mem_cons_self _ _
      · exact List.mem_cons_of_mem _ (ih x h)
    | openTag attrs =>
      rcases List.mem_cons.mp hx with h | h
      · rw [h]; exact List.mem_cons_self _ _
      · exact List.mem_cons_of_mem _ (ih x h)
    | selfTag attrs =>
      rcases List.mem_cons.mp hx with h | h
      · rw [h]; exact List.mem_cons_self _ _
      · exact List.mem_cons_of_mem _ (ih x h)

/-- Dropping open tags does not change the text content. -/
theorem dropOpenTags_textContent : ∀ (cs : List FootnoteChunk),
    textContent (dropOpenTags cs) = textContent cs := by
  intro cs
  induction cs with
  | nil => rfl
  | cons ch rest ih =>
    cases ch with
    | text t => show t ++ textContent (dropOpenTags rest) = t ++ textContent rest; rw [ih]
    | openTag attrs => exact ih
    | closeTag => exact ih
    | selfTag attrs => exact ih

/-- Dropping closing tags does not change the text content. -/
theorem dropCloseTags_textContent : ∀ (cs : List FootnoteChunk),
    textContent (dropCloseTags cs) = textContent cs := by
  intro cs
  induction cs with
  | nil => rfl
  | cons ch rest ih =>
    cases ch with
    | text t => show t ++ textContent (dropCloseTags rest) = t ++ textContent rest; rw [ih]
    | openTag attrs => exact ih
    | closeTag => exact ih
    | selfTag attrs => exact ih

/-- After dropping open and closing tags only text and self-closing chunks
remain. -/
theorem dropTags_textSelf : ∀ (cs : List FootnoteChunk),
    ∀ ch ∈ dropCloseTags (dropOpenTags cs), isTextOrSelf ch = true := by
  intro cs
  induction cs with
  | nil => intro ch hch; simpa [dropOpenTags, dropCloseTags] using hch
  | cons c rest ih =>
    intro ch hch
    cases c with
    | openTag attrs => exact ih ch hch
    | closeTag => exact ih ch hch
    | text t =>
      rcases List.mem_cons.mp hch with h | h
      · rw [h]; rfl
      · exact ih ch h
    | selfTag attrs =>
      rcases List.mem_cons.mp hch with h | h
      · rw [h]; rfl
      · exact ih ch h

/-- The text content of well-formed markup is `<`-free. -/
theorem textContent_no_lt : ∀ (cs : List FootnoteChunk), WellFormedMarkup cs →
    ∀ c ∈ textContent cs, c ≠ '<' := by
  intro cs
  induction cs with
  | nil => intro _ c hc; simp [textContent] at hc
  | cons ch rest ih =>
    intro h c hc
    have hrest : WellFormedMarkup rest := fun x hx => h x (List.mem_cons_of_mem ch hx)
    cases ch with
    | text t =>
      rcases List.mem_append.mp hc with hmem | hmem
      · have hch : chunkOK (FootnoteChunk.text t) = true :=
          h _ (List.mem_cons_self _ rest)
        simp only [chunkOK, List.all_eq_true, bne_iff_ne, ne_eq] at hch
        exact hch c hmem
      · exact ih hrest c hmem
    | openTag attrs => exact ih hrest c hc
    | closeTag => exact ih hrest c hc
    | selfTag attrs => exact ih hrest c hc

/-- Claim C9 (amended): for null/undefined input `stripFootnoteTags` returns
the empty string; and on every input that is a well-formed interleaving of
`<`-free text with complete footnote tags (open `<footnote` + whitespace +
`>`-free attribute text + `>`, closing `</footnote>`, self-closing
`<footnote` + attribute text + `/>`), it returns exactly the concatenated
text: all tags are removed, the output contains no `<` (hence no footnote
tag of any form), and stripping the output again changes nothing, so the
function is idempotent on such inputs.  (On arbitrary strings removal can
splice characters into a new tag, so idempotence and tag-freedom fail; see
the counterexample.) -/
theorem stripFootnoteTags_markup_spec (chunks : List FootnoteChunk)
    (h : WellFormedMarkup chunks) :
    stripFootnoteTags (some (String.mk (renderChunks chunks)))
      = String.mk (textContent chunks) ∧
    (∀ c ∈ textContent chunks, c ≠ '<') ∧
    stripFootnoteTags (some (String.mk (textContent chunks)))
      = String.mk (textContent chunks) ∧
    stripFootnoteTags none = ("") := by
  have hnl : ∀ c ∈ textContent chunks, c ≠ '<' := textContent_no_lt chunks h
  have hwf1 : WellFormedMarkup (dropOpenTags chunks) :=
    fun x hx => h x (dropOpenTags_subset chunks x hx)
  have hwf2 : WellFormedMarkup (dropCloseTags (dropOpenTags chunks)) :=
    fun x hx => hwf1 x (dropCloseTags_subset (dropOpenTags chunks) x hx)
  have h1 := stripOpenAux_renderChunks chunks h
  have h2 := stripCloseAux_renderChunks (dropOpenTags chunks) hwf1
  have h3 := stripSelfCloseAux_renderChunks (dropCloseTags (dropOpenTags chunks))
    hwf2 (dropTags_textSelf chunks)
  refine ⟨?_, hnl, ?_, rfl⟩
  · show String.mk (stripSelfCloseAux (stripCloseAux (stripOpenAux
        (renderChunks chunks)))) = String.mk (textContent chunks)
    rw [h1, h2, h3, dropCloseTags_textContent, dropOpenTags_textContent]
  · show String.mk (stripSelfCloseAux (stripCloseAux (stripOpenAux
        (textContent chunks)))) = String.mk (textContent chunks)
    rw [stripOpenAux_id _ hnl, stripCloseAux_id _ hnl, stripSelfCloseAux_id _ hnl]

/-- Witness for `stripFootnoteTags_markup_spec`: a text chunk, an open tag,
more text, a closing tag and a self-closing tag strip to the concatenated
text. -/
theorem stripFootnoteTags_markup_spec_witness :
    stripFootnoteTags (some (String.mk (renderChunks
        [ FootnoteChunk.text ([ 'a' ]),
          FootnoteChunk.openTag ([ ' ', 'i', 'd', '=', '1' ]),
          FootnoteChunk.text ([ 'b' ]),
          FootnoteChunk.closeTag,
          FootnoteChunk.selfTag ([]) ])))
      = String.mk (textContent
        [ FootnoteChunk.text ([ 'a' ]),
          FootnoteChunk.openTag ([ ' ', 'i', 'd', '=', '1' ]),
          FootnoteChunk.text ([ 'b' ]),
          FootnoteChunk.closeTag,
          FootnoteChunk.selfTag ([]) ]) ∧
    (∀ c ∈ textContent
        [ FootnoteChunk.text ([ 'a' ]),
          FootnoteChunk.openTag ([ ' ', 'i', 'd', '=', '1' ]),
          FootnoteChunk.text ([ 'b' ]),
          FootnoteChunk.closeTag,
          FootnoteChunk.selfTag ([]) ], c ≠ '<') ∧
    stripFootnoteTags (some (String.mk (textContent
        [ FootnoteChunk.text ([ 'a' ]),
          FootnoteChunk.openTag ([ ' ', 'i', 'd', '=', '1' ]),
          FootnoteChunk.text ([ 'b' ]),
          FootnoteChunk.closeTag,
          FootnoteChunk.selfTag ([]) ])))
      = String.mk (textContent
        [ FootnoteChunk.text ([ 'a' ]),
          FootnoteChunk.openTag ([ ' ', 'i', 'd', '=', '1' ]),
          FootnoteChunk.text ([ 'b' ]),
          FootnoteChunk.closeTag,
          FootnoteChunk.selfTag ([]) ]) ∧
    stripFootnoteTags none = ("") :=
  stripFootnoteTags_markup_spec
    [ FootnoteChunk.text ([ 'a' ]),
      FootnoteChunk.openTag ([ ' ', 'i', 'd', '=', '1' ]),
      FootnoteChunk.text ([ 'b' ]),
      FootnoteChunk.closeTag,
      FootnoteChunk.selfTag ([]) ]
    (by
      intro ch hch
      fin_cases hch <;> decide)

/-- Counterexample to claim C9 as stated: on
`"<foot<footnote a>note b>"` the first replace removes `<footnote a>` and
splices the remaining characters into `<footnote b>`, so the output contains
an opening footnote tag and stripping it again gives a different (empty)
result: `stripFootnoteTags` is not idempotent and its output is not
tag-free. -/
theorem stripFootnoteTags_cex :
    stripFootnoteTags (some ("<foot<footnote a>note b>")) = ("<footnote b>") ∧
    stripFootnoteTags (some ("<footnote b>")) = ("") ∧
    stripFootnoteTags (some (stripFootnoteTags (some ("<foot<footnote a>note b>"))))
      ≠ stripFootnoteTags (some ("<foot<footnote a>note b>")) := by
  refine ⟨by decide, by decide, ?_⟩
  intro hcontra
  rw [show stripFootnoteTags (some ("<foot<footnote a>note b>"))
      = ("<footnote b>") from by decide] at hcontra
  rw [show stripFootnoteTags (some ("<footnote b>")) = ("") from by decide] at hcontra
  exact absurd hcontra (by decide)
